import Mathlib

/-!
Shallow embedding of the sie-engine sync core (tools/kb_sync.py,
tools/pinecone_tool.py, tools/rebuild_mapping.py).

Python strings are modelled as `List Char`; character classes of the regular
expressions used by the source are modelled as decidable predicates on the
character's code point.  Machine-level float scores are modelled as `ℚ`
(only order comparisons are performed on them by the source).
-/

namespace SieEngine

/-- Python regex `\s` for `str` patterns: ASCII whitespace, the C1 separators,
NEL, NBSP and the Unicode space code points. -/
def isPySpace (c : Char) : Bool :=
  decide ((9 ≤ c.toNat ∧ c.toNat ≤ 13) ∨ (28 ≤ c.toNat ∧ c.toNat ≤ 32) ∨
    c.toNat = 133 ∨ c.toNat = 160 ∨ c.toNat = 5760 ∨
    (8192 ≤ c.toNat ∧ c.toNat ≤ 8202) ∨ c.toNat = 8232 ∨ c.toNat = 8233 ∨
    c.toNat = 8239 ∨ c.toNat = 8287 ∨ c.toNat = 12288)

/-- Regex class `[a-z]`. -/
def isLowerAlpha (c : Char) : Bool := decide (97 ≤ c.toNat ∧ c.toNat ≤ 122)

/-- Regex class `[0-9]`. -/
def isDigitChar (c : Char) : Bool := decide (48 ≤ c.toNat ∧ c.toNat ≤ 57)

/-- Python `str.lower()` restricted to the ASCII letters (the only case mapping the
slug pipeline can observe: every non-`[a-z0-9\s-]` character is removed
right after lowering). -/
def pyLower (c : Char) : Char :=
  if 65 ≤ c.toNat ∧ c.toNat ≤ 90 then Char.ofNat (c.toNat + 32) else c

/-- kb_sync.py line 433: the enumerated Unicode dash class
`[‐‑‒–—―−]`. -/
def kb_isUnicodeDash (c : Char) : Bool :=
  decide (c.toNat = 0x2010 ∨ c.toNat = 0x2011 ∨ c.toNat = 0x2012 ∨
    c.toNat = 0x2013 ∨ c.toNat = 0x2014 ∨ c.toNat = 0x2015 ∨ c.toNat = 0x2212)

/-- rebuild_mapping.py line 68: the range form `[‐-―−]`. -/
def rm_isUnicodeDash (c : Char) : Bool :=
  decide ((0x2010 ≤ c.toNat ∧ c.toNat ≤ 0x2015) ∨ c.toNat = 0x2212)

/-- Worker for `collapseRuns`; the flag records whether the previous input
character belonged to the class (i.e. we are inside a run). -/
def collapseGo (p : Char → Bool) (r : Char) : Bool → List Char → List Char
  | _, [] => []
  | false, c :: cs =>
    if p c then r :: collapseGo p r true cs else c :: collapseGo p r false cs
  | true, c :: cs =>
    if p c then collapseGo p r true cs else c :: collapseGo p r false cs

/-- Python `re.sub(r'[class]+', r, s)`: every maximal run of class characters is
replaced by the single character `r`. -/
def collapseRuns (p : Char → Bool) (r : Char) (l : List Char) : List Char :=
  collapseGo p r false l

/-- Python `str.strip(chars)` / `str.strip()`: drop class characters from both ends. -/
def stripBoth (p : Char → Bool) (l : List Char) : List Char :=
  ((l.dropWhile p).reverse.dropWhile p).reverse

/-- Python `str.strip('-')`. -/
def stripHyphens (l : List Char) : List Char := stripBoth (fun c => c == '-') l

/-- Python `str.strip()` (whitespace strip). -/
def pyStrip (l : List Char) : List Char := stripBoth isPySpace l

/-- The character class `[a-z0-9\s-]` kept by kb_sync.py line 439. -/
def keepSlugChar (c : Char) : Bool :=
  isLowerAlpha c || isDigitChar c || isPySpace c || c == '-'

/-- kb_sync.py `generate_slug` (lines 429-444), stage by stage:
lower; Unicode dashes to `-`; `.` to `-`; `/` to `-`; drop everything
outside `[a-z0-9\s-]`; whitespace/underscore runs to `-`; collapse `-` runs;
strip `-` at the ends. -/
def generate_slug (text : List Char) : List Char :=
  let s1 := text.map pyLower
  let s2 := s1.map (fun c => if kb_isUnicodeDash c then '-' else c)
  let s3 := s2.map (fun c => if c == '.' then '-' else c)
  let s4 := s3.map (fun c => if c == '/' then '-' else c)
  let s5 := s4.filter keepSlugChar
  let s6 := collapseRuns (fun c => isPySpace c || c == '_') '-' s5
  let s7 := collapseRuns (fun c => c == '-') '-' s6
  stripHyphens s7

/-- rebuild_mapping.py `generate_slug` (lines 66-73): same pipeline but the
dash class is written as a range and the two `replace` calls are chained. -/
def rm_generate_slug (text : List Char) : List Char :=
  let s1 := text.map pyLower
  let s2 := s1.map (fun c => if rm_isUnicodeDash c then '-' else c)
  let s3 := (s2.map (fun c => if c == '.' then '-' else c)).map
    (fun c => if c == '/' then '-' else c)
  let s5 := s3.filter keepSlugChar
  let s6 := collapseRuns (fun c => isPySpace c || c == '_') '-' s5
  let s7 := collapseRuns (fun c => c == '-') '-' s6
  stripHyphens s7

/-- Python `filename.replace('.md', '')`: remove every (left-to-right,
non-overlapping) occurrence of `.md`. -/
def stripDotMd : List Char → List Char
  | [] => []
  | '.' :: 'm' :: 'd' :: rest => stripDotMd rest
  | c :: rest => c :: stripDotMd rest

/-- Python `re.sub(r'^[0-9]+[_-]', '', name)`: strip one leading run of digits
followed by `_` or `-`, if present. -/
def stripNumPfx (l : List Char) : List Char :=
  let ds := l.takeWhile isDigitChar
  match l.drop ds.length with
  | c :: cs => if ds ≠ [] ∧ (c == '_' || c == '-') then cs else l
  | [] => l

/-- kb_sync.py `slug_from_filename` (lines 447-459). -/
def slug_from_filename (filename : List Char) : List Char :=
  generate_slug (stripNumPfx (stripDotMd filename))

/-- rebuild_mapping.py `slug_from_filename` (lines 76-79). -/
def rm_slug_from_filename (filename : List Char) : List Char :=
  rm_generate_slug (stripNumPfx (stripDotMd filename))

/-- Python `"/".join`-style join with a separator list. -/
def joinSep (sep : List Char) : List (List Char) → List Char
  | [] => []
  | [x] => x
  | x :: y :: xs => x ++ sep ++ joinSep sep (y :: xs)

/-- kb_sync.py `generate_path_slug` (lines 462-498).  The path relative to
the kb root is given as its directory components plus the filename. -/
def generate_path_slug (dirParts : List (List Char)) (fileName : List Char) :
    List Char :=
  let cleanDirs := (dirParts.map
    (fun part => generate_slug ((stripNumPfx part).map pyLower))).filter
    (fun d => d ≠ [])
  let fileSlug := slug_from_filename fileName
  if cleanDirs ≠ [] then joinSep ['/'] cleanDirs ++ '/' :: fileSlug
  else fileSlug

/-- rebuild_mapping.py `generate_path_slug` (lines 82-95). -/
def rm_generate_path_slug (dirParts : List (List Char)) (fileName : List Char) :
    List Char :=
  let cleanDirs := (dirParts.map
    (fun part => rm_generate_slug ((stripNumPfx part).map pyLower))).filter
    (fun d => d ≠ [])
  let fileSlug := rm_slug_from_filename fileName
  if cleanDirs ≠ [] then joinSep ['/'] cleanDirs ++ '/' :: fileSlug
  else fileSlug

/-- Characters allowed in a finished slug: `[a-z0-9-]`. -/
def isSlugOutputChar (c : Char) : Bool :=
  isLowerAlpha c || isDigitChar c || c == '-'

/-- Holds (as `true`) iff the list contains no two consecutive hyphens. -/
def noDoubleHyphen : List Char → Bool
  | c :: d :: rest => !(c == '-' && d == '-') && noDoubleHyphen (d :: rest)
  | _ => true

/-! ### Document chunker (tools/pinecone_tool.py, chunk_document) -/

/-- Python `str.split("\n")`-style decomposition into lines (the line model of the
`re.MULTILINE` anchors used by the source). -/
def splitLines : List Char → List (List Char)
  | [] => [[]]
  | c :: cs =>
    if c = '\n' then [] :: splitLines cs
    else
      match splitLines cs with
      | [] => [[c]]
      | l :: ls => (c :: l) :: ls

/-- A line matched by `^(## .+)$`: the two hash marks, one space, and at
least one further character. -/
def isH2Line (line : List Char) : Bool :=
  match line with
  | '#' :: '#' :: ' ' :: _ :: _ => true
  | _ => false

/-- Line-level form of `re.split(r'^(## .+)$', body, flags=re.MULTILINE)`:
the lines before the first H2 heading, and one (heading, following lines)
pair per heading. -/
def splitH2 : List (List Char) →
    List (List Char) × List (List Char × List (List Char))
  | [] => ([], [])
  | l :: ls =>
    let r := splitH2 ls
    if isH2Line l then ([], (l, r.1) :: r.2)
    else (l :: r.1, r.2)

/-- One retrieval chunk (pinecone_tool.py chunk_document result entry). -/
structure Chunk where
  chunk_index : Nat
  section_header : List Char
  content : List Char
  raw_text : List Char
deriving DecidableEq

/-- The shared preamble built by chunk_document (pinecone_tool.py
lines 77-87). -/
def buildPreamble (title semantic_summary : List Char)
    (key_concepts tags synthetic_questions : List (List Char)) : List Char :=
  let ps := [title] ++
    (if semantic_summary ≠ [] then [semantic_summary] else []) ++
    (if key_concepts ≠ [] then
      ["Key concepts: ".data ++ joinSep ", ".data key_concepts] else []) ++
    (if tags ≠ [] then ["Tags: ".data ++ joinSep ", ".data tags] else []) ++
    (if synthetic_questions ≠ [] then
      ["Questions this answers: ".data ++
        joinSep " | ".data synthetic_questions] else [])
  joinSep ['\n'] ps ++ '\n' :: ['\n']

/-- Python `header.lstrip("# ").strip()`. -/
def headerLabel (header : List Char) : List Char :=
  pyStrip (header.dropWhile (fun c => c == '#' || c == ' '))

/-- pinecone_tool.py `chunk_document` (lines 56-127).  Defaulted keyword
arguments are passed explicitly; `None` defaults become `[]`. -/
def chunk_document (title body semantic_summary : List Char)
    (synthetic_questions key_concepts tags : List (List Char)) : List Chunk :=
  let preamble :=
    buildPreamble title semantic_summary key_concepts tags synthetic_questions
  let parts := splitH2 (splitLines body)
  let intro_text := pyStrip (joinSep ['\n'] parts.1)
  let chunks0 : List Chunk :=
    if intro_text ≠ [] then
      [⟨0, "Introduction".data, preamble ++ intro_text, intro_text⟩]
    else []
  let chunks1 := parts.2.foldl (fun acc sec =>
    let header := pyStrip sec.1
    let section_body := pyStrip (joinSep ['\n'] sec.2)
    if section_body = [] then acc
    else
      let section_text := header ++ '\n' :: section_body
      acc ++ [⟨acc.length, headerLabel header,
        preamble ++ section_text, section_text⟩]) chunks0
  if chunks1 = [] ∧ pyStrip body ≠ [] then
    [⟨0, [], preamble ++ pyStrip body, pyStrip body⟩]
  else chunks1

/-! ### Frontmatter parser (tools/kb_sync.py, parse_frontmatter) -/

/-- A line matched by `^---\s*$`: exactly three hyphens plus optional
trailing whitespace. -/
def isDelimLine (line : List Char) : Bool :=
  match line with
  | '-' :: '-' :: '-' :: rest => rest.all isPySpace
  | _ => false

/-- Index of the first delimiter line. -/
def findDelim : List (List Char) → Option Nat
  | [] => none
  | l :: ls => if isDelimLine l then some 0 else (findDelim ls).map (· + 1)

/-- kb_sync.py `parse_frontmatter` (lines 244-280).  `yamlParse` stands for
`yaml.safe_load` followed by the `or {}` coercion: `some d` is a successful
parse, `none` a `YAMLError` (which makes the function return empty metadata
and the original text). -/
def parse_frontmatter {α : Type} (yamlParse : List Char → Option α)
    (emptyMeta : α) (content : List Char) : α × List Char :=
  match splitLines content with
  | [] => (emptyMeta, content)
  | first :: rest =>
    if isDelimLine first then
      match findDelim rest with
      | none => (emptyMeta, content)
      | some i =>
        let fmText := joinSep ['\n'] (rest.take i)
        let body := pyStrip (joinSep ['\n'] (rest.drop (i + 1)))
        match yamlParse fmText with
        | some fm => (fm, body)
        | none => (emptyMeta, content)
    else (emptyMeta, content)

/-! ### Knowledge-core search (tools/pinecone_tool.py,
search_knowledge_core).  The network round trip (embedding + index query) is
abstracted: the function is modelled as a pure function of the match list
the index returned and of the configured thresholds. -/

/-- One index match.  Metadata fields carry the `metadata.get` defaults
already applied. -/
structure QMatch where
  id : List Char
  score : ℚ
  text : List Char
  source : List Char
  date : List Char
  title : List Char
  section_header : List Char
deriving DecidableEq

/-- Prefix test: whether `pat` starts the list `l`. -/
def listStartsWith : List Char → List Char → Bool
  | [], _ => true
  | _ :: _, [] => false
  | p :: ps, c :: cs => p == c && listStartsWith ps cs

/-- Position of the last occurrence of `pat` in `l`, if any. -/
def lastOccPos (pat l : List Char) : Option Nat :=
  ((List.range (l.length + 1)).filter
    (fun i => listStartsWith pat (l.drop i))).getLast?

/-- Python `match.id.rsplit("-chunk-", 1)[0]`: everything before the last
`-chunk-`, or the whole id when the separator does not occur. -/
def baseId (id : List Char) : List Char :=
  match lastOccPos "-chunk-".data id with
  | some i => id.take i
  | none => id

/-- One step of the `best_per_doc` dict update (pinecone_tool.py
lines 201-205): insert keyed by `b`, replacing only on strictly higher
score; insertion order of first occurrences is preserved. -/
def updBest (b : List Char) (m : QMatch) :
    List (List Char × QMatch) → List (List Char × QMatch)
  | [] => [(b, m)]
  | (k, v) :: rest =>
    if k = b then (if v.score < m.score then (k, m) else (k, v)) :: rest
    else (k, v) :: updBest b m rest

/-- The `best_per_doc` dict: highest-scoring match per base document. -/
def best_per_doc (ms : List QMatch) : List (List Char × QMatch) :=
  ms.foldl (fun acc m => updBest (baseId m.id) m acc) []

/-- Invariant of the `best_per_doc` fold: keys are distinct and are the
base ids of their values, every processed match has an entry for its base
id, and every entry is a processed match dominating all processed matches
of its base id. -/
def BestInv (acc : List (List Char × QMatch))
    (processed : List QMatch) : Prop :=
  ((acc.map Prod.fst).Nodup) ∧
  (∀ m ∈ processed, baseId m.id ∈ acc.map Prod.fst) ∧
  (∀ kv ∈ acc, kv.1 = baseId kv.2.id ∧ kv.2 ∈ processed ∧
    ∀ m ∈ processed, baseId m.id = kv.1 → m.score ≤ kv.2.score)

/-- ASCII apostrophe. -/
def sq : List Char := [Char.ofNat 39]

/-- The per-match report entry (pinecone_tool.py lines 217-230). -/
def entryFor (fmtScore : ℚ → List Char) (m : QMatch) : List Char :=
  let label_parts := (if m.title ≠ [] then [m.title] else []) ++
    (if m.section_header ≠ [] then [m.section_header] else [])
  let label :=
    if label_parts ≠ [] then joinSep " > ".data label_parts else m.source
  let header :=
    "**".data ++ label ++ " (Score: ".data ++ fmtScore m.score ++ ")**".data
  header ++ '\n' :: m.text ++ "\nSource: ".data ++ m.source ++
    " | Date: ".data ++ m.date

/-- The tier loop (pinecone_tool.py lines 208-235): discard below `low`,
place at-or-above `high` in the high tier, the rest in the medium tier. -/
def tierSplit (fmtScore : ℚ → List Char) (high low : ℚ) :
    List QMatch → List (List Char) × List (List Char)
  | [] => ([], [])
  | m :: ms =>
    let r := tierSplit fmtScore high low ms
    if m.score < low then r
    else if high ≤ m.score then (entryFor fmtScore m :: r.1, r.2)
    else (r.1, entryFor fmtScore m :: r.2)

/-- The zero-match message (pinecone_tool.py line 196). -/
def noIntelMsg (query : List Char) : List Char :=
  "Knowledge Core Search: No existing intelligence found on ".data ++
  sq ++ query ++ sq ++
  ". This is new territory - proceed with external research.".data

/-- pinecone_tool.py `search_knowledge_core` (lines 167-249), given the
matches returned by the index.  `fmtScore` is the `.2f` float rendering,
`fmtThresh` the plain float rendering, `fmtNum` the integer rendering. -/
def search_knowledge_core (fmtScore fmtThresh : ℚ → List Char)
    (fmtNum : Nat → List Char) (high low : ℚ) (query : List Char)
    (qms : List QMatch) : List Char :=
  if qms = [] then noIntelMsg query
  else
    let best := (best_per_doc qms).map Prod.snd
    let tiers := tierSplit fmtScore high low best
    if tiers.1 = [] ∧ tiers.2 = [] then
      "Knowledge Core Search: Found ".data ++ fmtNum qms.length ++
      " matches for ".data ++ sq ++ query ++ sq ++
      " but none above confidence threshold (".data ++ fmtThresh low ++
      "). Recommend fresh external research.".data
    else
      let parts :=
        (if tiers.1 ≠ [] then
          ["**High-Confidence Results:**\n\n".data ++
            joinSep "\n\n---\n\n".data tiers.1] else []) ++
        (if tiers.2 ≠ [] then
          ["**Medium-Confidence Results:**\n\n".data ++
            joinSep "\n\n---\n\n".data tiers.2] else [])
      "**Knowledge Core Intelligence Found:**\n\n".data ++
        joinSep "\n\n".data parts

/-! ### Sync orchestrator (tools/kb_sync.py, sync_file / sync_all /
save_mapping_file).  Remote calls are modelled by an explicit client
interface threading an abstract WordPress state; a raising call is an
`Except.error` carrying the exception message and leaving the state
unchanged.  The Pinecone upsert never raises (pinecone_tool catches
internally and returns a message string), so it is a total function. -/

inductive SyncStatus
  | pending | skipped | dry_run | created | updated | error
deriving DecidableEq

/-- The structured per-file result dict built by sync_file.  The `rankmath`
sub-status is not modelled (no claim mentions it). -/
structure SyncResult where
  relPath : List Char
  status : SyncStatus
  post_id : Option Nat
  pinecone : Option (List Char)
  error : Option (List Char)
  url : Option (List Char)
  title : Option (List Char)
deriving DecidableEq

/-- One identity-map entry (value of kb_sync_mapping.json). -/
structure MapEntry where
  post_id : Option Nat
  slug : List Char
  url : List Char
  title : List Char
  last_synced : List Char
deriving DecidableEq

/-- The identity map, an insertion-ordered path-keyed dictionary. -/
abbrev Mapping := List (List Char × MapEntry)

def lookupMap : Mapping → List Char → Option MapEntry
  | [], _ => none
  | (k, v) :: rest, p => if k = p then some v else lookupMap rest p

def setMap : Mapping → List Char → MapEntry → Mapping
  | [], p, e => [(p, e)]
  | (k, v) :: rest, p, e =>
    if k = p then (k, e) :: rest else (k, v) :: setMap rest p e

/-- A markdown file as sync_file sees it after reading and frontmatter
parsing: `body` is the text after frontmatter removal, `fmTitle`/`fmSlug`
the frontmatter overrides, `nameTitle` the `title_from_filename` fallback
and `pathSlug` the `generate_path_slug` fallback for this file. -/
structure MdFile where
  relPath : List Char
  body : List Char
  fmTitle : Option (List Char)
  fmSlug : Option (List Char)
  nameTitle : List Char
  pathSlug : List Char
deriving DecidableEq

/-- Python `a or b` on an optional string: empty and missing both fall
back. -/
def orDefault (o : Option (List Char)) (d : List Char) : List Char :=
  match o with
  | some s => if s = [] then d else s
  | none => d

/-- The WordPress payload; only the title is observable by any claim, the
remaining payload fields (HTML content, topics, tags, excerpt, date, acf)
are abstracted away. -/
structure Payload where
  title : List Char
deriving DecidableEq

/-- The WordPressClient capability set used by sync_file.  `create_post`
and `update_post` return the new post id and its link and advance the
remote state. -/
structure WPApi (σ : Type) where
  get_post_by_slug : σ → List Char → Except (List Char) (Option Nat)
  create_post : σ → Payload → Except (List Char) (Nat × List Char × σ)
  update_post : σ → Nat → Payload → Except (List Char) (Nat × List Char × σ)

/-- The slug-lookup fallback of sync_file (kb_sync.py lines 690-697):
lookup by slug, update on a hit, create on a miss. -/
def slugFallback {σ : Type} (api : WPApi σ) (wp : σ) (payload : Payload)
    (slug : List Char) :
    Except (List Char) (Nat × List Char × σ × SyncStatus) :=
  match api.get_post_by_slug wp slug with
  | .error e => .error e
  | .ok (some pid) =>
    match api.update_post wp pid payload with
    | .ok (p2, link, wp2) => .ok (p2, link, wp2, SyncStatus.updated)
    | .error e => .error e
  | .ok none =>
    match api.create_post wp payload with
    | .ok (p2, link, wp2) => .ok (p2, link, wp2, SyncStatus.created)
    | .error e => .error e

/-- The create-or-update decision of sync_file (kb_sync.py lines 678-697):
a truthy identity-map post id wins, the slug lookup is only the
fallback.  Python truthiness makes a stored id of 0 fall through. -/
def resolveWrite {σ : Type} (api : WPApi σ) (wp : σ) (payload : Payload)
    (slug : List Char) (entryId : Option Nat) :
    Except (List Char) (Nat × List Char × σ × SyncStatus) :=
  match entryId with
  | some n =>
    if n ≠ 0 then
      match api.update_post wp n payload with
      | .ok (pid, link, wp2) => .ok (pid, link, wp2, SyncStatus.updated)
      | .error e => .error e
    else slugFallback api wp payload slug
  | none => slugFallback api wp payload slug

/-- Python `title = frontmatter.get("title") or title_from_filename(...)` and the
payload built from it (only the title is modelled). -/
def payloadOf (f : MdFile) : Payload :=
  { title := orDefault f.fmTitle f.nameTitle }

/-- Python `slug = frontmatter.get("slug") or generate_path_slug(...)`. -/
def slugOf (f : MdFile) : List Char := orDefault f.fmSlug f.pathSlug

/-- Python `existing_mapping[rel_path].get("post_id")` when the path is mapped. -/
def entryIdOf (m : Mapping) (f : MdFile) : Option Nat :=
  match lookupMap m f.relPath with
  | some e => e.post_id
  | none => none

/-- kb_sync.py `sync_file` (lines 561-732).  The surrounding try/except is
the match on the `Except` results: any raising step yields the ERROR
result with the captured message and an unchanged remote state. -/
def sync_file {σ : Type} (api : WPApi σ) (pinecone : Nat → List Char)
    (wp : σ) (f : MdFile) (dry_run : Bool) (existing_mapping : Mapping) :
    SyncResult × σ :=
  if pyStrip f.body = [] then
    ({ relPath := f.relPath, status := .skipped, post_id := none,
       pinecone := none, error := some "No body content".data,
       url := none, title := none }, wp)
  else if dry_run then
    ({ relPath := f.relPath, status := .dry_run, post_id := none,
       pinecone := none, error := none, url := none,
       title := some (orDefault f.fmTitle f.nameTitle) }, wp)
  else
    match resolveWrite api wp (payloadOf f) (slugOf f)
        (entryIdOf existing_mapping f) with
    | .error e =>
      ({ relPath := f.relPath, status := .error, post_id := none,
         pinecone := none, error := some e, url := none,
         title := none }, wp)
    | .ok (pid, link, wp2, st) =>
      ({ relPath := f.relPath, status := st, post_id := some pid,
         pinecone := some (pinecone pid), error := none,
         url := some link, title := some (orDefault f.fmTitle f.nameTitle) },
        wp2)

/-- The per-file loop of sync_all, threading the remote state. -/
def sync_batch {σ : Type} (api : WPApi σ) (pinecone : Nat → List Char)
    (dry_run : Bool) (existing_mapping : Mapping) :
    σ → List MdFile → List SyncResult × σ
  | wp, [] => ([], wp)
  | wp, f :: fs =>
    let r := sync_file api pinecone wp f dry_run existing_mapping
    let rest := sync_batch api pinecone dry_run existing_mapping r.2 fs
    (r.1 :: rest.1, rest.2)

/-- kb_sync.py `sync_all` (lines 735-787): load the identity map once,
process every enumerated syncable file, return one result per file.  The
identity-map component of the returned state equals the input map:
sync_all itself never writes the mapping file (persistence happens only in
the CLI `__main__` block, via save_mapping_file). -/
def sync_all {σ : Type} (api : WPApi σ) (pinecone : Nat → List Char)
    (wp : σ) (files : List MdFile) (dry_run : Bool)
    (existing_mapping : Mapping) : List SyncResult × σ × Mapping :=
  let r := sync_batch api pinecone dry_run existing_mapping wp files
  (r.1, r.2, existing_mapping)

/-- Python `result.get("url", "").split("/kb/")[-1].rstrip("/")` when `/kb/`
occurs in the url, else the empty slug. -/
def extractSlug (url : List Char) : List Char :=
  match lastOccPos "/kb/".data url with
  | some i => ((url.drop (i + 4)).reverse.dropWhile (fun c => c == '/')).reverse
  | none => []

/-- The guard of save_mapping_file (kb_sync.py line 836): status created or
updated, and a truthy post id. -/
def entryWorthy (r : SyncResult) : Bool :=
  (decide (r.status = .created) || decide (r.status = .updated)) &&
  (match r.post_id with | some n => decide (n ≠ 0) | none => false)

/-- kb_sync.py `save_mapping_file` (lines 812-857): fold the batch results
into the existing map, inserting an entry only for created/updated results
with a truthy post id. -/
def save_mapping_file (now : List Char) (results : List SyncResult)
    (existing : Mapping) : Mapping :=
  results.foldl (fun acc r =>
    if entryWorthy r then
      setMap acc r.relPath
        { post_id := r.post_id,
          slug := extractSlug ((r.url).getD []),
          url := (r.url).getD [],
          title := (r.title).getD [],
          last_synced := now }
    else acc) existing

/-- The CLI batch path (kb_sync.py lines 957-980): sync_all, then the
mapping is persisted via save_mapping_file. -/
def cli_sync_batch {σ : Type} (api : WPApi σ) (pinecone : Nat → List Char)
    (now : List Char) (wp : σ) (files : List MdFile) (dry_run : Bool)
    (m : Mapping) : List SyncResult × σ × Mapping :=
  let r := sync_all api pinecone wp files dry_run m
  (r.1, r.2.1, save_mapping_file now r.1 r.2.2)

/-! ### Concrete fixtures (used by plain evaluation examples) -/

/-- A sample remote link. -/
def wLink : List Char := "https://example.com/kb/a/".data

/-- A deterministic in-memory WordPress model: state is a counter, created
posts get the next positive id, updates return the id plus one. -/
def wApi : WPApi Nat :=
  { get_post_by_slug := fun _ _ => .ok none,
    create_post := fun s _ => .ok (s + 1, wLink, s + 1),
    update_post := fun s n _ => .ok (n + 1, wLink, s) }

/-- A WordPress model whose every call raises. -/
def errApi : WPApi Nat :=
  { get_post_by_slug := fun _ _ => .error "500 Server Error".data,
    create_post := fun _ _ => .error "503 Error".data,
    update_post := fun _ _ _ => .error "502 Error".data }

/-- A sample parsed markdown file. -/
def wFile : MdFile :=
  { relPath := "a.md".data, body := "hello".data, fmTitle := none,
    fmSlug := none, nameTitle := "A".data, pathSlug := "a".data }

/-- A sample identity-map entry with a truthy post id. -/
def wEntry : MapEntry :=
  { post_id := some 5, slug := "a".data, url := wLink, title := "A".data,
    last_synced := [] }

/-- A sample identity map holding wEntry for wFile. -/
def wMapping : Mapping := [("a.md".data, wEntry)]

/-- A trivial Pinecone upsert message. -/
def wPinecone : Nat → List Char := fun _ => "ok".data

/-! ### Helper lemmas about the character-list operations -/

theorem collapseGo_mem {p q : Char → Bool} {r : Char} (hq : q r = true) :
    ∀ (l : List Char) (b : Bool), (∀ c ∈ l, p c = false → q c = true) →
      ∀ c ∈ collapseGo p r b l, q c = true := by
  intro l
  induction l with
  | nil => intro b _ c hc; cases b <;> simp [collapseGo] at hc
  | cons a as ih =>
    intro b h c hc
    have ha := h a (List.mem_cons_self a as)
    have has : ∀ c ∈ as, p c = false → q c = true :=
      fun c hc hp => h c (List.mem_cons_of_mem a hc) hp
    cases b with
    | false =>
      by_cases hp : p a = true
      · simp only [collapseGo, if_pos hp] at hc
        rcases List.mem_cons.mp hc with rfl | hc
        · exact hq
        · exact ih true has c hc
      · simp only [collapseGo, if_neg hp] at hc
        rcases List.mem_cons.mp hc with rfl | hc
        · exact ha (Bool.not_eq_true _ ▸ hp)
        · exact ih false has c hc
    | true =>
      by_cases hp : p a = true
      · simp only [collapseGo, if_pos hp] at hc
        exact ih true has c hc
      · simp only [collapseGo, if_neg hp] at hc
        rcases List.mem_cons.mp hc with rfl | hc
        · exact ha (Bool.not_eq_true _ ▸ hp)
        · exact ih false has c hc

theorem collapseGo_head_true {p : Char → Bool} {r : Char} :
    ∀ (l : List Char) (x : Char) (xs : List Char),
      collapseGo p r true l = x :: xs → p x = false := by
  intro l
  induction l with
  | nil => intro x xs h; simp [collapseGo] at h
  | cons a as ih =>
    intro x xs h
    by_cases hp : p a = true
    · simp only [collapseGo, if_pos hp] at h
      exact ih x xs h
    · simp only [collapseGo, if_neg hp] at h
      rw [List.cons.injEq] at h
      exact h.1 ▸ (Bool.not_eq_true _ ▸ hp)

theorem noDoubleHyphen_cons {c : Char} {l : List Char}
    (h : noDoubleHyphen (c :: l) = true) : noDoubleHyphen l = true := by
  cases l with
  | nil => rfl
  | cons d ds =>
    simp only [noDoubleHyphen, Bool.and_eq_true] at h
    exact h.2

theorem noDoubleHyphen_cons_ne {c d : Char} {l : List Char}
    (h : noDoubleHyphen (c :: d :: l) = true) (hc : c = '-') : d ≠ '-' := by
  simp only [noDoubleHyphen, Bool.and_eq_true, Bool.not_eq_true',
    Bool.and_eq_false_iff, beq_eq_false_iff_ne] at h
  rcases h.1 with h1 | h1
  · exact absurd hc h1
  · exact h1

theorem collapseGo_noDouble :
    ∀ (l : List Char) (b : Bool),
      noDoubleHyphen (collapseGo (fun c => c == '-') '-' b l) = true := by
  intro l
  induction l with
  | nil => intro b; cases b <;> simp [collapseGo, noDoubleHyphen]
  | cons a as ih =>
    intro b
    cases b with
    | false =>
      by_cases hp : (a == '-') = true
      · simp only [collapseGo, if_pos hp]
        cases hout : collapseGo (fun c => c == '-') '-' true as with
        | nil => simp [noDoubleHyphen]
        | cons x xs =>
          have hx : (x == '-') = false := collapseGo_head_true as x xs hout
          simp only [noDoubleHyphen, Bool.and_eq_true]
          constructor
          · simp [hx]
          · rw [← hout]; exact ih true
      · simp only [collapseGo, if_neg hp]
        cases hout : collapseGo (fun c => c == '-') '-' false as with
        | nil => simp [noDoubleHyphen]
        | cons x xs =>
          simp only [noDoubleHyphen, Bool.and_eq_true]
          constructor
          · simp only [Bool.not_eq_true', Bool.and_eq_false_iff]
            left; exact Bool.not_eq_true _ ▸ hp
          · rw [← hout]; exact ih false
    | true =>
      by_cases hp : (a == '-') = true
      · simp only [collapseGo, if_pos hp]; exact ih true
      · simp only [collapseGo, if_neg hp]
        cases hout : collapseGo (fun c => c == '-') '-' false as with
        | nil => simp [noDoubleHyphen]
        | cons x xs =>
          simp only [noDoubleHyphen, Bool.and_eq_true]
          constructor
          · simp only [Bool.not_eq_true', Bool.and_eq_false_iff]
            left; exact Bool.not_eq_true _ ▸ hp
          · rw [← hout]; exact ih false

theorem noDoubleHyphen_append_left :
    ∀ (l t : List Char), noDoubleHyphen (l ++ t) = true →
      noDoubleHyphen l = true := by
  intro l
  induction l with
  | nil => intro t _; rfl
  | cons a as ih =>
    intro t h
    cases as with
    | nil => rfl
    | cons d ds =>
      simp only [List.cons_append, noDoubleHyphen, Bool.and_eq_true] at h ⊢
      exact ⟨h.1, ih t (by simpa using h.2)⟩

theorem noDoubleHyphen_append_right :
    ∀ (s l : List Char), noDoubleHyphen (s ++ l) = true →
      noDoubleHyphen l = true := by
  intro s
  induction s with
  | nil => intro l h; simpa using h
  | cons a as ih =>
    intro l h
    exact ih l (noDoubleHyphen_cons (by simpa using h))

theorem dropWhile_eq_append (p : Char → Bool) :
    ∀ l : List Char, ∃ s, l = s ++ l.dropWhile p := by
  intro l
  induction l with
  | nil => exact ⟨[], rfl⟩
  | cons a as ih =>
    by_cases hp : p a = true
    · obtain ⟨s, hs⟩ := ih
      exact ⟨a :: s, by simp [List.dropWhile, hp]; exact hs⟩
    · exact ⟨[], by simp [List.dropWhile, hp]⟩

theorem dropWhile_head_false {p : Char → Bool} :
    ∀ (l : List Char) (x : Char) (xs : List Char),
      l.dropWhile p = x :: xs → p x = false := by
  intro l
  induction l with
  | nil => intro x xs h; simp [List.dropWhile] at h
  | cons a as ih =>
    intro x xs h
    by_cases hp : p a = true
    · rw [List.dropWhile_cons, if_pos hp] at h
      exact ih x xs h
    · rw [List.dropWhile_cons, if_neg hp] at h
      rw [List.cons.injEq] at h
      exact h.1 ▸ (Bool.not_eq_true _ ▸ hp)

theorem stripBoth_middle (p : Char → Bool) (l : List Char) :
    ∃ s t, l = s ++ stripBoth p l ++ t := by
  obtain ⟨s, hs⟩ := dropWhile_eq_append p l
  obtain ⟨t, ht⟩ := dropWhile_eq_append p (l.dropWhile p).reverse
  refine ⟨s, t.reverse, ?_⟩
  have h2 : l.dropWhile p = stripBoth p l ++ t.reverse := by
    have := congrArg List.reverse ht
    simpa [stripBoth, List.reverse_append] using this
  conv_lhs => rw [hs, h2]
  rw [List.append_assoc]

theorem stripBoth_mem {p : Char → Bool} {l : List Char} {c : Char}
    (h : c ∈ stripBoth p l) : c ∈ l := by
  obtain ⟨s, t, hst⟩ := stripBoth_middle p l
  rw [hst]
  simp [h]

theorem stripBoth_noDouble {p : Char → Bool} {l : List Char}
    (h : noDoubleHyphen l = true) : noDoubleHyphen (stripBoth p l) = true := by
  obtain ⟨s, t, hst⟩ := stripBoth_middle p l
  rw [hst] at h
  exact noDoubleHyphen_append_right s _ (noDoubleHyphen_append_left _ t h)

theorem stripBoth_head {p : Char → Bool} {l : List Char} {x : Char}
    (h : (stripBoth p l).head? = some x) : p x = false := by
  unfold stripBoth at h
  rw [List.head?_reverse] at h
  -- the head of the result is the last of B := A.reverse.dropWhile p,
  -- which (B being a suffix of A.reverse) is the head of A := l.dropWhile p
  obtain ⟨t, ht⟩ := dropWhile_eq_append p (l.dropWhile p).reverse
  have hBne : (l.dropWhile p).reverse.dropWhile p ≠ [] := by
    intro hB; rw [hB] at h; simp at h
  have hx : (l.dropWhile p).head? = some x := by
    rw [← List.getLast?_reverse, ht, List.getLast?_append_of_ne_nil t hBne]
    exact h
  cases hA : l.dropWhile p with
  | nil => rw [hA] at hx; simp at hx
  | cons a as =>
    rw [hA] at hx
    simp only [List.head?_cons, Option.some.injEq] at hx
    exact hx ▸ dropWhile_head_false l a as hA

theorem stripBoth_getLast {p : Char → Bool} {l : List Char} {x : Char}
    (h : (stripBoth p l).getLast? = some x) : p x = false := by
  unfold stripBoth at h
  rw [List.getLast?_reverse] at h
  cases hB : ((l.dropWhile p).reverse.dropWhile p) with
  | nil => rw [hB] at h; simp at h
  | cons b bs =>
    rw [hB] at h
    simp only [List.head?_cons, Option.some.injEq] at h
    exact h ▸ dropWhile_head_false _ b bs hB

theorem generate_slug_eq (x : List Char) :
    generate_slug x = stripHyphens (collapseRuns (fun c => c == '-') '-'
      (collapseRuns (fun c => isPySpace c || c == '_') '-'
        (List.filter keepSlugChar
          ((((x.map pyLower).map
            (fun c => if kb_isUnicodeDash c then '-' else c)).map
            (fun c => if c == '.' then '-' else c)).map
            (fun c => if c == '/' then '-' else c))))) := rfl

theorem generate_slug_all {x : List Char} {c : Char} (hc : c ∈ generate_slug x) :
    isSlugOutputChar c = true := by
  rw [generate_slug_eq] at hc
  unfold stripHyphens at hc
  have h7 := stripBoth_mem hc
  unfold collapseRuns at h7
  refine collapseGo_mem (by decide) _ false ?_ c h7
  intro d hd _
  refine collapseGo_mem (by decide) _ false ?_ d hd
  intro e he hp1
  have hk := (List.mem_filter.mp he).2
  simp only [keepSlugChar, Bool.or_eq_true] at hk
  simp only [Bool.or_eq_false_iff] at hp1
  simp only [isSlugOutputChar, Bool.or_eq_true]
  rcases hk with ((h | h) | h) | h
  · exact Or.inl (Or.inl h)
  · exact Or.inl (Or.inr h)
  · rw [hp1.1] at h; exact absurd h (by simp)
  · exact Or.inr h

theorem generate_slug_head (x : List Char) :
    (generate_slug x).head? ≠ some '-' := by
  rw [generate_slug_eq]
  unfold stripHyphens
  intro h
  have := stripBoth_head h
  simp at this

theorem generate_slug_last (x : List Char) :
    (generate_slug x).getLast? ≠ some '-' := by
  rw [generate_slug_eq]
  unfold stripHyphens
  intro h
  have := stripBoth_getLast h
  simp at this

theorem generate_slug_noDouble (x : List Char) :
    noDoubleHyphen (generate_slug x) = true := by
  rw [generate_slug_eq]
  unfold stripHyphens collapseRuns
  exact stripBoth_noDouble (collapseGo_noDouble _ false)

/-- All the pointwise facts needed to show that each slug-pipeline stage is
the identity on an already-well-formed slug character. -/
theorem slug_char_facts (c : Char) (h : isSlugOutputChar c = true) :
    pyLower c = c ∧ kb_isUnicodeDash c = false ∧ (c == '.') = false ∧
    (c == '/') = false ∧ keepSlugChar c = true ∧
    (isPySpace c || c == '_') = false := by
  simp only [isSlugOutputChar, isLowerAlpha, isDigitChar, Bool.or_eq_true,
    decide_eq_true_eq, beq_iff_eq] at h
  rcases h with (h | h) | h
  · refine ⟨?_, ?_, ?_, ?_, ?_, ?_⟩
    · unfold pyLower; rw [if_neg]; omega
    · simp only [kb_isUnicodeDash]; exact decide_eq_false_iff_not.mpr (by omega)
    · exact beq_eq_false_iff_ne.mpr (fun hc => by subst hc; exact absurd h (by decide))
    · exact beq_eq_false_iff_ne.mpr (fun hc => by subst hc; exact absurd h (by decide))
    · simp only [keepSlugChar, isLowerAlpha, Bool.or_eq_true, decide_eq_true_eq]
      exact Or.inl (Or.inl (Or.inl h))
    · refine Bool.or_eq_false_iff.mpr ⟨?_, ?_⟩
      · simp only [isPySpace]; exact decide_eq_false_iff_not.mpr (by omega)
      · exact beq_eq_false_iff_ne.mpr
          (fun hc => by subst hc; exact absurd h (by decide))
  · refine ⟨?_, ?_, ?_, ?_, ?_, ?_⟩
    · unfold pyLower; rw [if_neg]; omega
    · simp only [kb_isUnicodeDash]; exact decide_eq_false_iff_not.mpr (by omega)
    · exact beq_eq_false_iff_ne.mpr (fun hc => by subst hc; exact absurd h (by decide))
    · exact beq_eq_false_iff_ne.mpr (fun hc => by subst hc; exact absurd h (by decide))
    · simp only [keepSlugChar, isDigitChar, Bool.or_eq_true, decide_eq_true_eq]
      exact Or.inl (Or.inl (Or.inr h))
    · refine Bool.or_eq_false_iff.mpr ⟨?_, ?_⟩
      · simp only [isPySpace]; exact decide_eq_false_iff_not.mpr (by omega)
      · exact beq_eq_false_iff_ne.mpr
          (fun hc => by subst hc; exact absurd h (by decide))
  · subst h
    exact ⟨by decide, by decide, by decide, by decide, by decide, by decide⟩

theorem map_id_of_mem (f : Char → Char) {l : List Char}
    (h : ∀ c ∈ l, f c = c) : l.map f = l := by
  induction l with
  | nil => rfl
  | cons a as ih =>
    rw [List.map_cons, h a (List.mem_cons_self a as),
      ih fun c hc => h c (List.mem_cons_of_mem a hc)]

theorem collapseGo_id {p : Char → Bool} {r : Char} :
    ∀ l : List Char, (∀ c ∈ l, p c = false) → collapseGo p r false l = l := by
  intro l
  induction l with
  | nil => intro _; rfl
  | cons a as ih =>
    intro h
    have hpa : p a = false := h a (List.mem_cons_self a as)
    simp only [collapseGo, if_neg (by simp [hpa] : ¬p a = true)]
    rw [ih fun c hc => h c (List.mem_cons_of_mem a hc)]

theorem collapseGo_hyphen_id :
    ∀ l : List Char, noDoubleHyphen l = true →
      collapseGo (fun c => c == '-') '-' false l = l := by
  intro l
  induction l with
  | nil => intro _; rfl
  | cons a as ih =>
    intro h
    by_cases hpa : (a == '-') = true
    · have ha : a = '-' := by simpa using hpa
      subst ha
      simp only [collapseGo, if_pos hpa]
      cases as with
      | nil => rfl
      | cons d ds =>
        have hd : d ≠ '-' := noDoubleHyphen_cons_ne h rfl
        have hstep : collapseGo (fun c => c == '-') '-' true (d :: ds) =
            d :: collapseGo (fun c => c == '-') '-' false ds := by
          simp only [collapseGo,
            if_neg (by simpa using hd : ¬(d == '-') = true)]
        rw [hstep]
        have h2 := ih (noDoubleHyphen_cons h)
        simp only [collapseGo,
          if_neg (by simpa using hd : ¬(d == '-') = true)] at h2
        rw [List.cons.injEq] at h2
        rw [h2.2]
    · simp only [collapseGo, if_neg hpa]
      rw [ih (noDoubleHyphen_cons h)]

theorem dropWhile_id_of_head {p : Char → Bool} {l : List Char}
    (h : ∀ x, l.head? = some x → p x = false) : l.dropWhile p = l := by
  cases l with
  | nil => rfl
  | cons a as =>
    have := h a rfl
    rw [List.dropWhile_cons, if_neg (by simp [this])]

theorem stripBoth_id {p : Char → Bool} {l : List Char}
    (h1 : ∀ x, l.head? = some x → p x = false)
    (h2 : ∀ x, l.getLast? = some x → p x = false) : stripBoth p l = l := by
  unfold stripBoth
  rw [dropWhile_id_of_head h1]
  rw [dropWhile_id_of_head
    (fun x hx => h2 x (by rw [List.head?_reverse] at hx; exact hx))]
  exact List.reverse_reverse l

theorem generate_slug_id_on_wf {y : List Char}
    (hall : ∀ c ∈ y, isSlugOutputChar c = true)
    (hhead : y.head? ≠ some '-') (hlast : y.getLast? ≠ some '-')
    (hnd : noDoubleHyphen y = true) : generate_slug y = y := by
  rw [generate_slug_eq]
  rw [map_id_of_mem pyLower (fun c hc => (slug_char_facts c (hall c hc)).1)]
  rw [map_id_of_mem (fun c => if kb_isUnicodeDash c then '-' else c)
    (fun c hc => by
      have h := (slug_char_facts c (hall c hc)).2.1; simp [h])]
  rw [map_id_of_mem (fun c => if c == '.' then '-' else c)
    (fun c hc => by
      have h := (slug_char_facts c (hall c hc)).2.2.1; simp [h])]
  rw [map_id_of_mem (fun c => if c == '/' then '-' else c)
    (fun c hc => by
      have h := (slug_char_facts c (hall c hc)).2.2.2.1; simp [h])]
  rw [List.filter_eq_self.mpr (fun c hc => (slug_char_facts c (hall c hc)).2.2.2.2.1)]
  unfold collapseRuns
  rw [collapseGo_id y (fun c hc => (slug_char_facts c (hall c hc)).2.2.2.2.2)]
  rw [collapseGo_hyphen_id y hnd]
  unfold stripHyphens
  refine stripBoth_id ?_ ?_
  · intro x hx
    refine beq_eq_false_iff_ne.mpr (fun hxe => ?_)
    exact hhead (hxe ▸ hx)
  · intro x hx
    refine beq_eq_false_iff_ne.mpr (fun hxe => ?_)
    exact hlast (hxe ▸ hx)

theorem dash_classes_eq : kb_isUnicodeDash = rm_isUnicodeDash := by
  funext c
  exact decide_eq_decide.mpr (by omega)

theorem rm_generate_slug_eq : rm_generate_slug = generate_slug := by
  funext x
  unfold rm_generate_slug generate_slug
  rw [dash_classes_eq]

/-! ### Line-splitting lemmas -/

theorem splitLines_ne_nil : ∀ l : List Char, splitLines l ≠ [] := by
  intro l
  cases l with
  | nil => simp [splitLines]
  | cons c cs =>
    simp only [splitLines]
    by_cases hc : c = '\n'
    · rw [if_pos hc]; simp
    · rw [if_neg hc]
      cases splitLines cs <;> simp

theorem joinSep_splitLines : ∀ l : List Char, joinSep ['\n'] (splitLines l) = l := by
  intro l
  induction l with
  | nil => rfl
  | cons c cs ih =>
    simp only [splitLines]
    by_cases hc : c = '\n'
    · rw [if_pos hc]
      cases hs : splitLines cs with
      | nil => exact absurd hs (splitLines_ne_nil cs)
      | cons y ys =>
        rw [hs] at ih
        subst hc
        simp only [joinSep, List.nil_append, List.singleton_append]
        rw [ih]
    · rw [if_neg hc]
      cases hs : splitLines cs with
      | nil => exact absurd hs (splitLines_ne_nil cs)
      | cons y ys =>
        rw [hs] at ih
        cases ys with
        | nil =>
          simp only [joinSep] at ih ⊢
          rw [ih]
        | cons z zs =>
          simp only [joinSep, List.cons_append] at ih ⊢
          rw [ih]

theorem splitLines_append (ys : List Char) :
    ∀ xs : List Char, splitLines (xs ++ '\n' :: ys) =
      splitLines xs ++ splitLines ys := by
  intro xs
  induction xs with
  | nil => simp [splitLines]
  | cons c cs ih =>
    have ih2 : splitLines (cs.append ('\n' :: ys)) =
        splitLines cs ++ splitLines ys := ih
    simp only [List.cons_append, splitLines]
    by_cases hc : c = '\n'
    · rw [if_pos hc, if_pos hc, ih2]
      simp
    · rw [if_neg hc, if_neg hc, ih2]
      cases hs : splitLines cs with
      | nil => exact absurd hs (splitLines_ne_nil cs)
      | cons y ys2 => simp

/-! ### Chunker lemmas -/

theorem splitH2_no_h2 : ∀ lines : List (List Char),
    (∀ l ∈ lines, isH2Line l = false) → splitH2 lines = (lines, []) := by
  intro lines
  induction lines with
  | nil => intro _; rfl
  | cons l ls ih =>
    intro h
    simp only [splitH2]
    rw [if_neg (by simp [h l (List.mem_cons_self l ls)]),
      ih fun x hx => h x (List.mem_cons_of_mem l hx)]

/-- The section-accumulating fold of chunk_document, written out. -/
theorem chunkFold_spec (pre : List Char) :
    ∀ (secs : List (List Char × List (List Char))) (acc : List Chunk),
      acc.map Chunk.chunk_index = List.range acc.length →
      (secs.foldl (fun acc sec =>
        let header := pyStrip sec.1
        let section_body := pyStrip (joinSep ['\n'] sec.2)
        if section_body = [] then acc
        else
          let section_text := header ++ '\n' :: section_body
          acc ++ [⟨acc.length, headerLabel header,
            pre ++ section_text, section_text⟩]) acc).length =
        acc.length + (secs.filter
          (fun sec => decide (pyStrip (joinSep ['\n'] sec.2) ≠ []))).length ∧
      (secs.foldl (fun acc sec =>
        let header := pyStrip sec.1
        let section_body := pyStrip (joinSep ['\n'] sec.2)
        if section_body = [] then acc
        else
          let section_text := header ++ '\n' :: section_body
          acc ++ [⟨acc.length, headerLabel header,
            pre ++ section_text, section_text⟩]) acc).map Chunk.chunk_index =
        List.range (acc.length + (secs.filter
          (fun sec => decide (pyStrip (joinSep ['\n'] sec.2) ≠ []))).length) ∧
      (secs.foldl (fun acc sec =>
        let header := pyStrip sec.1
        let section_body := pyStrip (joinSep ['\n'] sec.2)
        if section_body = [] then acc
        else
          let section_text := header ++ '\n' :: section_body
          acc ++ [⟨acc.length, headerLabel header,
            pre ++ section_text, section_text⟩]) acc).map Chunk.section_header =
        acc.map Chunk.section_header ++ (secs.filter
          (fun sec => decide (pyStrip (joinSep ['\n'] sec.2) ≠ []))).map
          (fun sec => headerLabel (pyStrip sec.1)) := by
  intro secs
  induction secs with
  | nil =>
    intro acc hidx
    refine ⟨by simp, ?_, by simp⟩
    simpa using hidx
  | cons sec rest ih =>
    intro acc hidx
    by_cases hsec : pyStrip (joinSep ['\n'] sec.2) = []
    · simp only [List.foldl_cons, if_pos hsec]
      have hfilter : ((sec :: rest).filter
          (fun sec => decide (pyStrip (joinSep ['\n'] sec.2) ≠ []))) =
          rest.filter (fun sec => decide (pyStrip (joinSep ['\n'] sec.2) ≠ [])) := by
        rw [List.filter_cons_of_neg]
        simp [hsec]
      rw [hfilter]
      exact ih acc hidx
    · simp only [List.foldl_cons, if_neg hsec]
      have hfilter : ((sec :: rest).filter
          (fun sec => decide (pyStrip (joinSep ['\n'] sec.2) ≠ []))) =
          sec :: rest.filter
            (fun sec => decide (pyStrip (joinSep ['\n'] sec.2) ≠ [])) := by
        rw [List.filter_cons_of_pos]
        simp [hsec]
      rw [hfilter]
      have hidx2 : (acc ++ [(⟨acc.length, headerLabel (pyStrip sec.1),
          pre ++ (pyStrip sec.1 ++ '\n' :: pyStrip (joinSep ['\n'] sec.2)),
          pyStrip sec.1 ++ '\n' :: pyStrip (joinSep ['\n'] sec.2)⟩ : Chunk)]).map
          Chunk.chunk_index = List.range (acc ++ [(⟨acc.length,
          headerLabel (pyStrip sec.1),
          pre ++ (pyStrip sec.1 ++ '\n' :: pyStrip (joinSep ['\n'] sec.2)),
          pyStrip sec.1 ++ '\n' :: pyStrip (joinSep ['\n'] sec.2)⟩ : Chunk)]).length := by
        rw [List.map_append, hidx, List.length_append]
        simp [List.range_succ]
      obtain ⟨ih1, ih2, ih3⟩ := ih _ hidx2
      refine ⟨?_, ?_, ?_⟩
      · rw [ih1, List.length_append]
        simp only [List.length_cons, List.length_nil]
        omega
      · rw [ih2]
        congr 1
        rw [List.length_append]
        simp only [List.length_cons, List.length_nil]
        omega
      · rw [ih3]
        simp only [List.map_append, List.map_cons]
        simp

/-- chunk_document on a body with no second-level-heading lines: one
"Introduction" chunk when the trimmed body is non-empty, no chunk when it
is empty. -/
theorem chunk_no_headings (title semantic_summary : List Char)
    (synthetic_questions key_concepts tags : List (List Char))
    (body : List Char) (hH : ∀ l ∈ splitLines body, isH2Line l = false) :
    chunk_document title body semantic_summary synthetic_questions
      key_concepts tags =
      (if pyStrip body = [] then []
       else [⟨0, "Introduction".data,
         buildPreamble title semantic_summary key_concepts tags
           synthetic_questions ++ pyStrip body, pyStrip body⟩]) := by
  by_cases hb : pyStrip body = []
  · simp [chunk_document, splitH2_no_h2 _ hH, joinSep_splitLines, hb]
  · simp [chunk_document, splitH2_no_h2 _ hH, joinSep_splitLines, hb]

/-! ### Frontmatter lemmas -/

theorem findDelim_append :
    ∀ (L1 : List (List Char)) (d : List Char) (L2 : List (List Char)),
      (∀ l ∈ L1, isDelimLine l = false) → isDelimLine d = true →
      findDelim (L1 ++ d :: L2) = some L1.length := by
  intro L1
  induction L1 with
  | nil => intro d L2 _ hd; simp [findDelim, hd]
  | cons a as ih =>
    intro d L2 h1 hd
    have ha := h1 a (List.mem_cons_self a as)
    have ih2 : findDelim (as.append (d :: L2)) = some as.length :=
      ih d L2 (fun l hl => h1 l (List.mem_cons_of_mem a hl)) hd
    simp only [List.cons_append, findDelim]
    rw [if_neg (by simp [ha]), ih2]
    simp

theorem take_len_append {β : Type} :
    ∀ (L1 L2 : List β), (L1 ++ L2).take L1.length = L1 := by
  intro L1
  induction L1 with
  | nil => intro L2; simp
  | cons a as ih => intro L2; simp [ih]

theorem drop_len_append_succ {β : Type} :
    ∀ (L1 : List β) (d : β) (L2 : List β),
      (L1 ++ d :: L2).drop (L1.length + 1) = L2 := by
  intro L1
  induction L1 with
  | nil => intro d L2; simp
  | cons a as ih => intro d L2; simp only [List.cons_append,
      List.length_cons, List.drop_succ_cons]; exact ih d L2

/-- The round-trip half of claim C6: a document built as
`---\n<yaml>\n---\n<body>` (delimiter-free yaml, successful parse) yields
exactly the parsed yaml and the trimmed body, whatever the body contains. -/
theorem parse_frontmatter_roundtrip {α : Type}
    (yamlParse : List Char → Option α) (emptyMeta : α)
    (yaml bodyText : List Char) (d : α)
    (hY : ∀ l ∈ splitLines yaml, isDelimLine l = false)
    (hparse : yamlParse yaml = some d) :
    parse_frontmatter yamlParse emptyMeta
      ("---".data ++ '\n' :: (yaml ++ '\n' :: ("---".data ++ '\n' :: bodyText)))
      = (d, pyStrip bodyText) := by
  have h3 : splitLines "---".data = ["---".data] := by decide
  have hsplit : splitLines
      ("---".data ++ '\n' :: (yaml ++ '\n' :: ("---".data ++ '\n' :: bodyText)))
      = "---".data :: (splitLines yaml ++ "---".data :: splitLines bodyText) := by
    rw [splitLines_append, splitLines_append, splitLines_append, h3]
    simp
  have hdel : isDelimLine "---".data = true := by decide
  simp only [parse_frontmatter, hsplit]
  rw [if_pos hdel,
    findDelim_append (splitLines yaml) "---".data (splitLines bodyText) hY
      (by decide)]
  simp only [take_len_append, drop_len_append_succ, joinSep_splitLines, hparse]

/-- The no-frontmatter half of claim C6: text whose first line is not a
delimiter line comes back unchanged with empty metadata. -/
theorem parse_frontmatter_no_delim {α : Type}
    (yamlParse : List Char → Option α) (emptyMeta : α) (content : List Char)
    (hfirst : ∀ first rest, splitLines content = first :: rest →
      isDelimLine first = false) :
    parse_frontmatter yamlParse emptyMeta content = (emptyMeta, content) := by
  cases hc : splitLines content with
  | nil => exact absurd hc (splitLines_ne_nil content)
  | cons first rest =>
    have := hfirst first rest hc
    simp only [parse_frontmatter, hc]
    rw [if_neg (by simp [this])]

/-- Structure of chunk_document on a body with non-empty lead text:
one Introduction chunk followed by one chunk per non-empty heading section,
with contiguous zero-based indices and lstripped header labels. -/
theorem chunk_intro_sections (title semantic_summary : List Char)
    (synthetic_questions key_concepts tags : List (List Char))
    (body : List Char)
    (hintro : pyStrip (joinSep ['\n'] (splitH2 (splitLines body)).1) ≠ []) :
    (chunk_document title body semantic_summary synthetic_questions
      key_concepts tags).length =
      ((splitH2 (splitLines body)).2.filter
        (fun sec => decide (pyStrip (joinSep ['\n'] sec.2) ≠ []))).length + 1 ∧
    (chunk_document title body semantic_summary synthetic_questions
      key_concepts tags).map Chunk.chunk_index =
      List.range (chunk_document title body semantic_summary
        synthetic_questions key_concepts tags).length ∧
    (chunk_document title body semantic_summary synthetic_questions
      key_concepts tags).map Chunk.section_header =
      "Introduction".data :: ((splitH2 (splitLines body)).2.filter
        (fun sec => decide (pyStrip (joinSep ['\n'] sec.2) ≠ []))).map
        (fun sec => headerLabel (pyStrip sec.1)) := by
  obtain ⟨h1, h2, h3⟩ := chunkFold_spec
    (buildPreamble title semantic_summary key_concepts tags
      synthetic_questions)
    ((splitH2 (splitLines body)).2)
    [⟨0, "Introduction".data,
      buildPreamble title semantic_summary key_concepts tags
        synthetic_questions ++
        pyStrip (joinSep ['\n'] (splitH2 (splitLines body)).1),
      pyStrip (joinSep ['\n'] (splitH2 (splitLines body)).1)⟩]
    (by simp [List.range_succ])
  have hcd : chunk_document title body semantic_summary synthetic_questions
      key_concepts tags =
      ((splitH2 (splitLines body)).2).foldl (fun acc sec =>
        let header := pyStrip sec.1
        let section_body := pyStrip (joinSep ['\n'] sec.2)
        if section_body = [] then acc
        else
          let section_text := header ++ '\n' :: section_body
          acc ++ [⟨acc.length, headerLabel header,
            buildPreamble title semantic_summary key_concepts tags
              synthetic_questions ++ section_text, section_text⟩])
        [⟨0, "Introduction".data,
          buildPreamble title semantic_summary key_concepts tags
            synthetic_questions ++
            pyStrip (joinSep ['\n'] (splitH2 (splitLines body)).1),
          pyStrip (joinSep ['\n'] (splitH2 (splitLines body)).1)⟩] := by
    simp only [chunk_document]
    rw [if_pos hintro]
    rw [if_neg]
    intro hand
    have := congrArg List.length hand.1
    rw [h1] at this
    simp at this
  refine ⟨?_, ?_, ?_⟩
  · rw [hcd, h1]
    simp only [List.length_cons, List.length_nil]
    omega
  · rw [hcd, h2, h1]
  · rw [hcd, h3]
    simp

/-! ### Sync orchestrator lemmas -/

theorem sync_file_body_empty {σ : Type} (api : WPApi σ)
    (pinecone : Nat → List Char) (wp : σ) (f : MdFile) (dry : Bool)
    (m : Mapping) (hb : pyStrip f.body = []) :
    sync_file api pinecone wp f dry m =
      ({ relPath := f.relPath, status := .skipped, post_id := none,
         pinecone := none, error := some "No body content".data,
         url := none, title := none }, wp) := by
  unfold sync_file
  rw [if_pos hb]

theorem sync_file_resolve_error {σ : Type} (api : WPApi σ)
    (pinecone : Nat → List Char) (wp : σ) (f : MdFile) (m : Mapping)
    (e : List Char) (hb : pyStrip f.body ≠ [])
    (hres : resolveWrite api wp (payloadOf f) (slugOf f) (entryIdOf m f) =
      .error e) :
    sync_file api pinecone wp f false m =
      ({ relPath := f.relPath, status := .error, post_id := none,
         pinecone := none, error := some e, url := none,
         title := none }, wp) := by
  unfold sync_file
  rw [if_neg hb, if_neg (by simp), hres]

theorem sync_file_resolve_ok {σ : Type} (api : WPApi σ)
    (pinecone : Nat → List Char) (wp : σ) (f : MdFile) (m : Mapping)
    (pid : Nat) (link : List Char) (wp2 : σ) (st : SyncStatus)
    (hb : pyStrip f.body ≠ [])
    (hres : resolveWrite api wp (payloadOf f) (slugOf f) (entryIdOf m f) =
      .ok (pid, link, wp2, st)) :
    sync_file api pinecone wp f false m =
      ({ relPath := f.relPath, status := st, post_id := some pid,
         pinecone := some (pinecone pid), error := none, url := some link,
         title := some (orDefault f.fmTitle f.nameTitle) }, wp2) := by
  unfold sync_file
  rw [if_neg hb, if_neg (by simp), hres]

theorem sync_file_relPath {σ : Type} (api : WPApi σ)
    (pinecone : Nat → List Char) (wp : σ) (f : MdFile) (dry : Bool)
    (m : Mapping) :
    ((sync_file api pinecone wp f dry m).1).relPath = f.relPath := by
  unfold sync_file
  split
  · rfl
  · split
    · rfl
    · split <;> rfl

/-- A successful slugFallback is an update on a slug hit or a create on a
slug miss. -/
theorem slugFallback_ok_cases {σ : Type} {api : WPApi σ} {wp : σ}
    {payload : Payload} {slug : List Char} {pid : Nat} {link : List Char}
    {wp2 : σ} {st : SyncStatus}
    (heq : slugFallback api wp payload slug = .ok (pid, link, wp2, st)) :
    (st = .updated ∧ ∃ n, api.update_post wp n payload = .ok (pid, link, wp2)) ∨
    (st = .created ∧ api.create_post wp payload = .ok (pid, link, wp2)) := by
  unfold slugFallback at heq
  cases hg : api.get_post_by_slug wp slug with
  | error e => rw [hg] at heq; simp at heq
  | ok o =>
    rw [hg] at heq
    cases o with
    | none =>
      have heq2 : (match api.create_post wp payload with
          | Except.ok (p2, l2, s2) =>
            Except.ok (p2, l2, s2, SyncStatus.created)
          | Except.error e => Except.error e) =
          Except.ok (pid, link, wp2, st) := heq
      cases hc : api.create_post wp payload with
      | error e =>
        rw [hc] at heq2
        have h3 : (Except.error e : Except (List Char)
            (Nat × List Char × σ × SyncStatus)) =
            Except.ok (pid, link, wp2, st) := heq2
        simp at h3
      | ok v =>
        obtain ⟨p2, l2, s2⟩ := v
        rw [hc] at heq2
        have h3 : Except.ok (p2, l2, s2, SyncStatus.created) =
            Except.ok (pid, link, wp2, st) := heq2
        simp only [Except.ok.injEq, Prod.mk.injEq] at h3
        obtain ⟨h1, h2, h3, h4⟩ := h3
        refine Or.inr ⟨h4.symm, ?_⟩
        rw [h1, h2, h3]
    | some hit =>
      have heq2 : (match api.update_post wp hit payload with
          | Except.ok (p2, l2, s2) =>
            Except.ok (p2, l2, s2, SyncStatus.updated)
          | Except.error e => Except.error e) =
          Except.ok (pid, link, wp2, st) := heq
      cases hu : api.update_post wp hit payload with
      | error e =>
        rw [hu] at heq2
        have h3 : (Except.error e : Except (List Char)
            (Nat × List Char × σ × SyncStatus)) =
            Except.ok (pid, link, wp2, st) := heq2
        simp at h3
      | ok v =>
        obtain ⟨p2, l2, s2⟩ := v
        rw [hu] at heq2
        have h3 : Except.ok (p2, l2, s2, SyncStatus.updated) =
            Except.ok (pid, link, wp2, st) := heq2
        simp only [Except.ok.injEq, Prod.mk.injEq] at h3
        obtain ⟨h1, h2, h3, h4⟩ := h3
        refine Or.inl ⟨h4.symm, ⟨hit, ?_⟩⟩
        rw [hu, h1, h2, h3]

/-- A successful resolveWrite is an update (status UPDATED) or a create
(status CREATED), and the returned post id comes from that call. -/
theorem resolveWrite_ok_cases {σ : Type} {api : WPApi σ} {wp : σ}
    {payload : Payload} {slug : List Char} {entryId : Option Nat}
    {pid : Nat} {link : List Char} {wp2 : σ} {st : SyncStatus}
    (heq : resolveWrite api wp payload slug entryId =
      .ok (pid, link, wp2, st)) :
    (st = .updated ∧ ∃ n, api.update_post wp n payload = .ok (pid, link, wp2)) ∨
    (st = .created ∧ api.create_post wp payload = .ok (pid, link, wp2)) := by
  cases entryId with
  | none =>
    simp only [resolveWrite] at heq
    exact slugFallback_ok_cases heq
  | some n =>
    simp only [resolveWrite] at heq
    by_cases hn : n ≠ 0
    · rw [if_pos hn] at heq
      cases hu : api.update_post wp n payload with
      | error e =>
        rw [hu] at heq
        have h3 : (Except.error e : Except (List Char)
            (Nat × List Char × σ × SyncStatus)) =
            Except.ok (pid, link, wp2, st) := heq
        simp at h3
      | ok v =>
        obtain ⟨p2, l2, s2⟩ := v
        rw [hu] at heq
        have h3 : Except.ok (p2, l2, s2, SyncStatus.updated) =
            Except.ok (pid, link, wp2, st) := heq
        simp only [Except.ok.injEq, Prod.mk.injEq] at h3
        obtain ⟨h1, h2, h3, h4⟩ := h3
        refine Or.inl ⟨h4.symm, ⟨n, ?_⟩⟩
        rw [hu, h1, h2, h3]
    · rw [if_neg hn] at heq
      exact slugFallback_ok_cases heq

theorem sync_file_not_pending {σ : Type} (api : WPApi σ)
    (pinecone : Nat → List Char) (wp : σ) (f : MdFile) (dry : Bool)
    (m : Mapping) :
    ((sync_file api pinecone wp f dry m).1).status ≠ .pending := by
  unfold sync_file
  split
  · simp
  · split
    · simp
    · cases hres : resolveWrite api wp (payloadOf f) (slugOf f)
        (entryIdOf m f) with
      | error e => simp
      | ok v =>
        obtain ⟨pid, link, wp2, st⟩ := v
        rcases resolveWrite_ok_cases hres with ⟨h, -⟩ | ⟨h, -⟩ <;>
          simp [h]

/-- C2 core: a truthy identity-map post id makes sync_file update that
record by id.  The conclusion mentions only `update_post`: the slug lookup
and the create call are irrelevant (the `api` is arbitrary in those
fields). -/
theorem sync_file_map_hit {σ : Type} (api : WPApi σ)
    (pinecone : Nat → List Char) (wp : σ) (f : MdFile) (m : Mapping)
    (e : MapEntry) (n pid : Nat) (link : List Char) (wp2 : σ)
    (hb : pyStrip f.body ≠ [])
    (hmap : lookupMap m f.relPath = some e)
    (hid : e.post_id = some n) (hn : n ≠ 0)
    (hupd : api.update_post wp n (payloadOf f) = .ok (pid, link, wp2)) :
    sync_file api pinecone wp f false m =
      ({ relPath := f.relPath, status := .updated, post_id := some pid,
         pinecone := some (pinecone pid), error := none, url := some link,
         title := some (orDefault f.fmTitle f.nameTitle) }, wp2) := by
  have hentry : entryIdOf m f = some n := by
    unfold entryIdOf
    rw [hmap]
    exact hid
  have hres : resolveWrite api wp (payloadOf f) (slugOf f) (entryIdOf m f) =
      .ok (pid, link, wp2, SyncStatus.updated) := by
    rw [hentry]
    show (if n ≠ 0 then
        (match api.update_post wp n (payloadOf f) with
         | Except.ok (p2, l2, s2) => Except.ok (p2, l2, s2, SyncStatus.updated)
         | Except.error e2 => Except.error e2)
      else slugFallback api wp (payloadOf f) (slugOf f)) =
      Except.ok (pid, link, wp2, SyncStatus.updated)
    rw [if_pos hn, hupd]
  exact sync_file_resolve_ok api pinecone wp f m pid link wp2 .updated hb hres

/-! ### Identity-map lemmas -/

theorem lookupMap_set_self (m : Mapping) (p : List Char) (e : MapEntry) :
    lookupMap (setMap m p e) p = some e := by
  induction m with
  | nil => simp [setMap, lookupMap]
  | cons kv rest ih =>
    obtain ⟨k, v⟩ := kv
    by_cases hk : k = p
    · simp [setMap, lookupMap, hk]
    · simp only [setMap, lookupMap, if_neg hk]
      exact ih

theorem lookupMap_set_ne (m : Mapping) (p q : List Char) (e : MapEntry)
    (hpq : p ≠ q) : lookupMap (setMap m p e) q = lookupMap m q := by
  induction m with
  | nil => simp [setMap, lookupMap, hpq]
  | cons kv rest ih =>
    obtain ⟨k, v⟩ := kv
    by_cases hk : k = p
    · subst hk
      simp [setMap, lookupMap, hpq]
    · simp only [setMap, lookupMap, if_neg hk]
      by_cases hkq : k = q
      · simp [hkq]
      · simp only [if_neg hkq]
        exact ih

/-- entryWorthy unfolded: created/updated status plus a truthy post id. -/
theorem entryWorthy_iff (r : SyncResult) :
    entryWorthy r = true ↔
      (r.status = .created ∨ r.status = .updated) ∧
      ∃ n, r.post_id = some n ∧ n ≠ 0 := by
  unfold entryWorthy
  cases hp : r.post_id with
  | none => simp
  | some n =>
    simp only [Bool.and_eq_true, Bool.or_eq_true, decide_eq_true_eq]
    constructor
    · rintro ⟨h1, h2⟩
      exact ⟨h1, ⟨n, rfl, h2⟩⟩
    · rintro ⟨h1, ⟨n2, hn2, hne⟩⟩
      refine ⟨h1, ?_⟩
      rw [Option.some.injEq] at hn2
      exact hn2 ▸ hne

/-- save_mapping_file leaves a path untouched unless some result for that
path ended created or updated. -/
theorem save_mapping_untouched (now : List Char) :
    ∀ (results : List SyncResult) (existing : Mapping) (p : List Char),
      (∀ r ∈ results, r.relPath = p →
        ¬(r.status = .created ∨ r.status = .updated)) →
      lookupMap (save_mapping_file now results existing) p =
        lookupMap existing p := by
  intro results
  induction results with
  | nil => intro existing p _; rfl
  | cons r rest ih =>
    intro existing p h
    unfold save_mapping_file at ih ⊢
    rw [List.foldl_cons]
    by_cases hw : entryWorthy r = true
    · have hst := ((entryWorthy_iff r).mp hw).1
      have hne : r.relPath ≠ p := by
        intro hrp
        exact h r (List.mem_cons_self r rest) hrp hst
      rw [if_pos hw]
      rw [ih _ p (fun x hx => h x (List.mem_cons_of_mem r hx))]
      exact lookupMap_set_ne existing r.relPath p _ hne
    · rw [if_neg hw]
      exact ih _ p (fun x hx => h x (List.mem_cons_of_mem r hx))

/-- A path with a truthy entry keeps a truthy entry through
save_mapping_file. -/
theorem save_mapping_preserves_good (now : List Char) :
    ∀ (results : List SyncResult) (existing : Mapping) (p : List Char),
      (∃ e, lookupMap existing p = some e ∧ ∃ n, e.post_id = some n ∧ n ≠ 0) →
      ∃ e, lookupMap (save_mapping_file now results existing) p = some e ∧
        ∃ n, e.post_id = some n ∧ n ≠ 0 := by
  intro results
  induction results with
  | nil => intro existing p h; exact h
  | cons r rest ih =>
    intro existing p h
    unfold save_mapping_file at ih ⊢
    rw [List.foldl_cons]
    by_cases hw : entryWorthy r = true
    · rw [if_pos hw]
      refine ih _ p ?_
      by_cases hrp : r.relPath = p
      · subst hrp
        obtain ⟨-, ⟨n, hn, hne⟩⟩ := (entryWorthy_iff r).mp hw
        exact ⟨_, lookupMap_set_self existing r.relPath _, ⟨n, hn, hne⟩⟩
      · rw [lookupMap_set_ne existing r.relPath p _ hrp]
        exact h
    · rw [if_neg hw]
      exact ih _ p h

/-- An entryWorthy result guarantees a truthy entry for its path in the
saved map. -/
theorem save_mapping_written (now : List Char) :
    ∀ (results : List SyncResult) (existing : Mapping) (p : List Char),
      (∃ r ∈ results, entryWorthy r = true ∧ r.relPath = p) →
      ∃ e, lookupMap (save_mapping_file now results existing) p = some e ∧
        ∃ n, e.post_id = some n ∧ n ≠ 0 := by
  intro results
  induction results with
  | nil => intro existing p h; simp at h
  | cons r rest ih =>
    intro existing p h
    obtain ⟨r0, hr0, hw0, hp0⟩ := h
    unfold save_mapping_file at ih ⊢
    rw [List.foldl_cons]
    rcases List.mem_cons.mp hr0 with rfl | hr0
    · rw [if_pos hw0]
      refine save_mapping_preserves_good now rest _ p ?_
      subst hp0
      obtain ⟨-, ⟨n, hn, hne⟩⟩ := (entryWorthy_iff r0).mp hw0
      exact ⟨_, lookupMap_set_self existing r0.relPath _, ⟨n, hn, hne⟩⟩
    · by_cases hw : entryWorthy r = true
      · rw [if_pos hw]
        exact ih _ p ⟨r0, hr0, hw0, hp0⟩
      · rw [if_neg hw]
        exact ih _ p ⟨r0, hr0, hw0, hp0⟩

/-! ### Batch lemmas -/

theorem sync_batch_length {σ : Type} (api : WPApi σ)
    (pinecone : Nat → List Char) (dry : Bool) (m : Mapping) :
    ∀ (files : List MdFile) (wp : σ),
      (sync_batch api pinecone dry m wp files).1.length = files.length := by
  intro files
  induction files with
  | nil => intro wp; rfl
  | cons f fs ih =>
    intro wp
    simp only [sync_batch, List.length_cons]
    rw [ih]

theorem sync_batch_mem {σ : Type} (api : WPApi σ)
    (pinecone : Nat → List Char) (dry : Bool) (m : Mapping) :
    ∀ (files : List MdFile) (wp : σ),
      ∀ r ∈ (sync_batch api pinecone dry m wp files).1,
        ∃ f ∈ files, ∃ s, r = (sync_file api pinecone s f dry m).1 := by
  intro files
  induction files with
  | nil => intro wp r hr; simp [sync_batch] at hr
  | cons f fs ih =>
    intro wp r hr
    simp only [sync_batch] at hr
    rcases List.mem_cons.mp hr with rfl | hr
    · exact ⟨f, List.mem_cons_self f fs, wp, rfl⟩
    · obtain ⟨f2, hf2, s, hs⟩ := ih _ r hr
      exact ⟨f2, List.mem_cons_of_mem f hf2, s, hs⟩

theorem sync_batch_covers {σ : Type} (api : WPApi σ)
    (pinecone : Nat → List Char) (dry : Bool) (m : Mapping) :
    ∀ (files : List MdFile) (wp : σ), ∀ f ∈ files,
      ∃ s, (sync_file api pinecone s f dry m).1 ∈
        (sync_batch api pinecone dry m wp files).1 := by
  intro files
  induction files with
  | nil => intro wp f hf; simp at hf
  | cons g gs ih =>
    intro wp f hf
    rcases List.mem_cons.mp hf with rfl | hf
    · exact ⟨wp, by simp only [sync_batch]; exact List.mem_cons_self _ _⟩
    · obtain ⟨s, hs⟩ := ih
        (sync_file api pinecone wp g dry m).2 f hf
      exact ⟨s, by simp only [sync_batch]; exact List.mem_cons_of_mem _ hs⟩

theorem sync_file_not_skipped {σ : Type} (api : WPApi σ)
    (pinecone : Nat → List Char) (wp : σ) (f : MdFile) (m : Mapping)
    (hb : pyStrip f.body ≠ []) :
    (sync_file api pinecone wp f false m).1.status ≠ .skipped := by
  cases hres : resolveWrite api wp (payloadOf f) (slugOf f) (entryIdOf m f) with
  | error e =>
    rw [sync_file_resolve_error api pinecone wp f m e hb hres]
    simp
  | ok v =>
    obtain ⟨pid, link, wp2, st⟩ := v
    rw [sync_file_resolve_ok api pinecone wp f m pid link wp2 st hb hres]
    rcases resolveWrite_ok_cases hres with ⟨h, -⟩ | ⟨h, -⟩ <;> simp [h]

/-- A created/updated sync_file result carries a truthy post id, provided
the remote api returns positive record ids. -/
theorem sync_file_cu_worthy {σ : Type} (api : WPApi σ)
    (pinecone : Nat → List Char) (wp : σ) (f : MdFile) (m : Mapping)
    (hpos_c : ∀ s pl pid link s2,
      api.create_post s pl = .ok (pid, link, s2) → pid ≠ 0)
    (hpos_u : ∀ s nn pl pid link s2,
      api.update_post s nn pl = .ok (pid, link, s2) → pid ≠ 0)
    (hb : pyStrip f.body ≠ [])
    (hcu : (sync_file api pinecone wp f false m).1.status = .created ∨
      (sync_file api pinecone wp f false m).1.status = .updated) :
    entryWorthy (sync_file api pinecone wp f false m).1 = true := by
  cases hres : resolveWrite api wp (payloadOf f) (slugOf f) (entryIdOf m f) with
  | error e =>
    rw [sync_file_resolve_error api pinecone wp f m e hb hres] at hcu
    simp at hcu
  | ok v =>
    obtain ⟨pid, link, wp2, st⟩ := v
    have heq := sync_file_resolve_ok api pinecone wp f m pid link wp2 st hb hres
    rw [heq] at hcu ⊢
    have hpid : pid ≠ 0 := by
      rcases resolveWrite_ok_cases hres with ⟨-, n2, hu⟩ | ⟨-, hc⟩
      · exact hpos_u wp n2 (payloadOf f) pid link wp2 hu
      · exact hpos_c wp (payloadOf f) pid link wp2 hc
    rw [entryWorthy_iff]
    refine ⟨?_, ⟨pid, rfl, hpid⟩⟩
    simpa using hcu

/-! ### Dedup (best_per_doc) lemmas -/

theorem updBest_keys_mem (b : List Char) (m : QMatch) :
    ∀ acc : List (List Char × QMatch), b ∈ acc.map Prod.fst →
      (updBest b m acc).map Prod.fst = acc.map Prod.fst := by
  intro acc
  induction acc with
  | nil => intro h; simp at h
  | cons kv rest ih =>
    obtain ⟨k, v⟩ := kv
    intro h
    by_cases hk : k = b
    · simp only [updBest, if_pos hk]
      by_cases hscore : v.score < m.score <;> simp [hscore, hk]
    · simp only [updBest, if_neg hk, List.map_cons]
      simp only [List.map_cons, List.mem_cons] at h
      rcases h with h | h
      · exact absurd h.symm hk
      · rw [ih h]

theorem updBest_keys_new (b : List Char) (m : QMatch) :
    ∀ acc : List (List Char × QMatch), b ∉ acc.map Prod.fst →
      (updBest b m acc).map Prod.fst = acc.map Prod.fst ++ [b] := by
  intro acc
  induction acc with
  | nil => intro _; rfl
  | cons kv rest ih =>
    obtain ⟨k, v⟩ := kv
    intro h
    simp only [List.map_cons, List.mem_cons] at h
    push_neg at h
    have hk : ¬ k = b := Ne.symm h.1
    simp only [updBest, if_neg hk, List.map_cons, List.cons_append]
    rw [ih h.2]

theorem updBest_keys_sub (b : List Char) (m : QMatch)
    (acc : List (List Char × QMatch)) :
    acc.map Prod.fst ⊆ (updBest b m acc).map Prod.fst := by
  by_cases hb : b ∈ acc.map Prod.fst
  · rw [updBest_keys_mem b m acc hb]
    exact fun a ha => ha
  · rw [updBest_keys_new b m acc hb]
    exact fun a ha => List.mem_append_left _ ha

theorem updBest_keys_self (b : List Char) (m : QMatch)
    (acc : List (List Char × QMatch)) :
    b ∈ (updBest b m acc).map Prod.fst := by
  by_cases hb : b ∈ acc.map Prod.fst
  · rw [updBest_keys_mem b m acc hb]; exact hb
  · rw [updBest_keys_new b m acc hb]
    exact List.mem_append_right _ (List.mem_singleton.mpr rfl)

theorem updBest_mem (b : List Char) (m : QMatch) :
    ∀ acc : List (List Char × QMatch), ∀ kv ∈ updBest b m acc,
      kv ∈ acc ∨ kv = (b, m) := by
  intro acc
  induction acc with
  | nil =>
    intro kv h
    simp only [updBest, List.mem_singleton] at h
    exact Or.inr h
  | cons hd rest ih =>
    obtain ⟨k, v⟩ := hd
    intro kv h
    by_cases hk : k = b
    · simp only [updBest, if_pos hk] at h
      by_cases hscore : v.score < m.score
      · rw [if_pos hscore] at h
        rcases List.mem_cons.mp h with rfl | h
        · exact Or.inr (by rw [hk])
        · exact Or.inl (List.mem_cons_of_mem _ h)
      · rw [if_neg hscore] at h
        rcases List.mem_cons.mp h with rfl | h
        · exact Or.inl (List.mem_cons_self _ _)
        · exact Or.inl (List.mem_cons_of_mem _ h)
    · simp only [updBest, if_neg hk] at h
      rcases List.mem_cons.mp h with rfl | h
      · exact Or.inl (List.mem_cons_self _ _)
      · rcases ih kv h with h2 | h2
        · exact Or.inl (List.mem_cons_of_mem _ h2)
        · exact Or.inr h2

theorem keys_mem_exists (b : List Char) :
    ∀ acc : List (List Char × QMatch), b ∈ acc.map Prod.fst →
      ∃ v, (b, v) ∈ acc := by
  intro acc h
  obtain ⟨kv, hkv, hfst⟩ := List.mem_map.mp h
  exact ⟨kv.2, by rwa [show (b, kv.2) = kv from by rw [← hfst]]⟩

/-- Any entry of updBest carrying the inserted key dominates both the
inserted match and every previous entry of that key. -/
theorem updBest_dominates (b : List Char) (m : QMatch) :
    ∀ acc : List (List Char × QMatch), (acc.map Prod.fst).Nodup →
      ∀ v' : QMatch, (b, v') ∈ updBest b m acc →
        m.score ≤ v'.score ∧ ∀ v, (b, v) ∈ acc → v.score ≤ v'.score := by
  intro acc
  induction acc with
  | nil =>
    intro _ v' h
    simp only [updBest, List.mem_singleton, Prod.mk.injEq] at h
    refine ⟨le_of_eq (by rw [h.2]), ?_⟩
    intro v hv
    simp at hv
  | cons hd rest ih =>
    obtain ⟨k, v0⟩ := hd
    intro hnd v' h
    simp only [List.map_cons, List.nodup_cons] at hnd
    by_cases hk : k = b
    · subst hk
      simp only [updBest, if_pos rfl] at h
      have hnotrest : ∀ v, (k, v) ∈ rest → False := by
        intro v hv
        exact hnd.1 (List.mem_map.mpr ⟨(k, v), hv, rfl⟩)
      by_cases hscore : v0.score < m.score
      · rw [if_pos hscore] at h
        rcases List.mem_cons.mp h with heq | h
        · have hv' : v' = m := by
            simpa using heq
          subst hv'
          refine ⟨le_refl _, ?_⟩
          intro v hv
          rcases List.mem_cons.mp hv with heq2 | hv
          · have : v = v0 := by simpa using heq2
            exact this ▸ le_of_lt hscore
          · exact absurd hv (by intro h2; exact hnotrest v h2)
        · exact absurd h (by intro h2; exact hnotrest v' h2)
      · rw [if_neg hscore] at h
        rcases List.mem_cons.mp h with heq | h
        · have hv' : v' = v0 := by simpa using heq
          subst hv'
          refine ⟨not_lt.mp hscore, ?_⟩
          intro v hv
          rcases List.mem_cons.mp hv with heq2 | hv
          · have : v = v' := by simpa using heq2
            exact this ▸ le_refl _
          · exact absurd hv (by intro h2; exact hnotrest v h2)
        · exact absurd h (by intro h2; exact hnotrest v' h2)
    · simp only [updBest, if_neg hk] at h
      rcases List.mem_cons.mp h with heq | h
      · exact absurd (congrArg Prod.fst heq).symm hk
      · obtain ⟨h1, h2⟩ := ih hnd.2 v' h
        refine ⟨h1, ?_⟩
        intro v hv
        rcases List.mem_cons.mp hv with heq2 | hv
        · exact absurd (congrArg Prod.fst heq2).symm hk
        · exact h2 v hv

theorem nodup_append_single {β : Type} (ks : List β) (b : β)
    (h1 : ks.Nodup) (h2 : b ∉ ks) : (ks ++ [b]).Nodup := by
  induction ks with
  | nil => simp
  | cons a as ih =>
    simp only [List.nodup_cons] at h1
    simp only [List.mem_cons] at h2
    push_neg at h2
    simp only [List.cons_append, List.nodup_cons]
    refine ⟨?_, ih h1.2 h2.2⟩
    intro hmem
    rcases List.mem_append.mp hmem with h3 | h3
    · exact h1.1 h3
    · exact h2.1 (List.mem_singleton.mp h3).symm

/-- One step of the best_per_doc fold preserves the invariant. -/
theorem bestInv_step (acc : List (List Char × QMatch))
    (processed : List QMatch) (m : QMatch) (hInv : BestInv acc processed) :
    BestInv (updBest (baseId m.id) m acc) (processed ++ [m]) := by
  obtain ⟨hnd, hcomplete, hmain⟩ := hInv
  refine ⟨?_, ?_, ?_⟩
  · by_cases hb : baseId m.id ∈ acc.map Prod.fst
    · rw [updBest_keys_mem _ m acc hb]; exact hnd
    · rw [updBest_keys_new _ m acc hb]
      exact nodup_append_single _ _ hnd hb
  · intro m' hm'
    rcases List.mem_append.mp hm' with hm' | hm'
    · exact updBest_keys_sub _ m acc (hcomplete m' hm')
    · rw [List.mem_singleton.mp hm']
      exact updBest_keys_self _ m acc
  · intro kv hkv
    rcases updBest_mem _ m acc kv hkv with hold | hnew
    · obtain ⟨hk1, hk2, hk3⟩ := hmain kv hold
      refine ⟨hk1, List.mem_append_left _ hk2, ?_⟩
      intro m' hm' hbase
      rcases List.mem_append.mp hm' with hm' | hm'
      · exact hk3 m' hm' hbase
      · -- m' = m and the entry has the inserted key
        rw [List.mem_singleton.mp hm'] at hbase ⊢
        have hkvb : (baseId m.id, kv.2) ∈ updBest (baseId m.id) m acc := by
          rw [show (baseId m.id, kv.2) = kv from by rw [hbase]]
          exact hkv
        exact (updBest_dominates _ m acc hnd kv.2 hkvb).1
    · subst hnew
      refine ⟨rfl, List.mem_append_right _ (List.mem_singleton.mpr rfl), ?_⟩
      intro m' hm' hbase
      rcases List.mem_append.mp hm' with hm' | hm'
      · -- an earlier match of the same base id: dominated transitively
        have hdom := (updBest_dominates (baseId m.id) m acc hnd m hkv).2
        have hbmem : baseId m.id ∈ acc.map Prod.fst := by
          have := hcomplete m' hm'
          rwa [show baseId m'.id = baseId m.id from hbase] at this
        obtain ⟨v, hv⟩ := keys_mem_exists _ acc hbmem
        have h1 := (hmain (baseId m.id, v) hv).2.2 m' hm'
          (show baseId m'.id = (baseId m.id, v).1 from hbase)
        exact le_trans h1 (hdom v hv)
      · rw [List.mem_singleton.mp hm']

theorem bestInv_fold :
    ∀ (ms : List QMatch) (acc : List (List Char × QMatch))
      (processed : List QMatch), BestInv acc processed →
      BestInv (ms.foldl (fun acc m => updBest (baseId m.id) m acc) acc)
        (processed ++ ms) := by
  intro ms
  induction ms with
  | nil => intro acc processed h; simpa using h
  | cons m rest ih =>
    intro acc processed h
    rw [List.foldl_cons]
    have h2 := ih (updBest (baseId m.id) m acc) (processed ++ [m])
      (bestInv_step acc processed m h)
    rw [List.append_assoc] at h2
    simpa using h2

theorem best_per_doc_inv (ms : List QMatch) : BestInv (best_per_doc ms) ms := by
  have h := bestInv_fold ms [] [] ⟨by simp, by simp, by simp⟩
  simpa [best_per_doc] using h

/-! ### Tier lemmas -/

theorem tierSplit_filter (fmtScore : ℚ → List Char) (high low : ℚ) :
    ∀ ms : List QMatch,
      (tierSplit fmtScore high low ms).1 =
        (ms.filter (fun m => !decide (m.score < low) &&
          decide (high ≤ m.score))).map (entryFor fmtScore) ∧
      (tierSplit fmtScore high low ms).2 =
        (ms.filter (fun m => !decide (m.score < low) &&
          !decide (high ≤ m.score))).map (entryFor fmtScore) := by
  intro ms
  induction ms with
  | nil => exact ⟨rfl, rfl⟩
  | cons m rest ih =>
    by_cases hlow : m.score < low
    · have hf1 : (!decide (m.score < low) && decide (high ≤ m.score)) = false := by
        simp [hlow]
      have hf2 : (!decide (m.score < low) && !decide (high ≤ m.score)) = false := by
        simp [hlow]
      simp only [tierSplit, if_pos hlow, List.filter_cons, hf1, hf2,
        if_neg (by simp : ¬false = true)]
      exact ih
    · by_cases hhigh : high ≤ m.score
      · have hf1 : (!decide (m.score < low) && decide (high ≤ m.score)) = true := by
          simp [hlow, hhigh]
        have hf2 : (!decide (m.score < low) && !decide (high ≤ m.score)) = false := by
          simp [hlow, hhigh]
        simp only [tierSplit, if_neg hlow, if_pos hhigh, List.filter_cons,
          hf1, hf2, if_neg (by simp : ¬false = true)]
        refine ⟨?_, ih.2⟩
        rw [if_pos trivial, List.map_cons, ih.1]
      · have hf1 : (!decide (m.score < low) && decide (high ≤ m.score)) = false := by
          simp [hlow, hhigh]
        have hf2 : (!decide (m.score < low) && !decide (high ≤ m.score)) = true := by
          simp [hlow, hhigh]
        simp only [tierSplit, if_neg hlow, if_neg hhigh, List.filter_cons,
          hf1, hf2, if_neg (by simp : ¬false = true)]
        refine ⟨ih.1, ?_⟩
        rw [if_pos trivial, List.map_cons, ih.2]

/-! ### Report structure lemmas -/

theorem search_report_both (fmtScore fmtThresh : ℚ → List Char)
    (fmtNum : Nat → List Char) (high low : ℚ) (query : List Char)
    (qms : List QMatch) (hne : qms ≠ [])
    (h1 : (tierSplit fmtScore high low
      ((best_per_doc qms).map Prod.snd)).1 ≠ [])
    (h2 : (tierSplit fmtScore high low
      ((best_per_doc qms).map Prod.snd)).2 ≠ []) :
    search_knowledge_core fmtScore fmtThresh fmtNum high low query qms =
      "**Knowledge Core Intelligence Found:**\n\n".data ++
      (("**High-Confidence Results:**\n\n".data ++
        joinSep "\n\n---\n\n".data (tierSplit fmtScore high low
          ((best_per_doc qms).map Prod.snd)).1) ++
       "\n\n".data ++
       ("**Medium-Confidence Results:**\n\n".data ++
        joinSep "\n\n---\n\n".data (tierSplit fmtScore high low
          ((best_per_doc qms).map Prod.snd)).2)) := by
  unfold search_knowledge_core
  rw [if_neg hne, if_neg (by intro hand; exact h1 hand.1), if_pos h1,
    if_pos h2]
  simp [joinSep]

theorem search_report_high_only (fmtScore fmtThresh : ℚ → List Char)
    (fmtNum : Nat → List Char) (high low : ℚ) (query : List Char)
    (qms : List QMatch) (hne : qms ≠ [])
    (h1 : (tierSplit fmtScore high low
      ((best_per_doc qms).map Prod.snd)).1 ≠ [])
    (h2 : (tierSplit fmtScore high low
      ((best_per_doc qms).map Prod.snd)).2 = []) :
    search_knowledge_core fmtScore fmtThresh fmtNum high low query qms =
      "**Knowledge Core Intelligence Found:**\n\n".data ++
      ("**High-Confidence Results:**\n\n".data ++
        joinSep "\n\n---\n\n".data (tierSplit fmtScore high low
          ((best_per_doc qms).map Prod.snd)).1) := by
  unfold search_knowledge_core
  rw [if_neg hne, if_neg (by intro hand; exact h1 hand.1), if_pos h1,
    if_neg (by simp [h2])]
  simp [joinSep]

theorem search_report_medium_only (fmtScore fmtThresh : ℚ → List Char)
    (fmtNum : Nat → List Char) (high low : ℚ) (query : List Char)
    (qms : List QMatch) (hne : qms ≠ [])
    (h1 : (tierSplit fmtScore high low
      ((best_per_doc qms).map Prod.snd)).1 = [])
    (h2 : (tierSplit fmtScore high low
      ((best_per_doc qms).map Prod.snd)).2 ≠ []) :
    search_knowledge_core fmtScore fmtThresh fmtNum high low query qms =
      "**Knowledge Core Intelligence Found:**\n\n".data ++
      ("**Medium-Confidence Results:**\n\n".data ++
        joinSep "\n\n---\n\n".data (tierSplit fmtScore high low
          ((best_per_doc qms).map Prod.snd)).2) := by
  unfold search_knowledge_core
  rw [if_neg hne, if_neg (by intro hand; exact h2 hand.2),
    if_neg (by simp [h1]), if_pos h2]
  simp [joinSep]

theorem search_report_below (fmtScore fmtThresh : ℚ → List Char)
    (fmtNum : Nat → List Char) (high low : ℚ) (query : List Char)
    (qms : List QMatch) (hne : qms ≠ [])
    (h1 : (tierSplit fmtScore high low
      ((best_per_doc qms).map Prod.snd)).1 = [])
    (h2 : (tierSplit fmtScore high low
      ((best_per_doc qms).map Prod.snd)).2 = []) :
    search_knowledge_core fmtScore fmtThresh fmtNum high low query qms =
      "Knowledge Core Search: Found ".data ++ fmtNum qms.length ++
      " matches for ".data ++ sq ++ query ++ sq ++
      " but none above confidence threshold (".data ++ fmtThresh low ++
      "). Recommend fresh external research.".data := by
  unfold search_knowledge_core
  rw [if_neg hne, if_pos ⟨h1, h2⟩]

/-! ### Claim theorems -/

/-- C7: generate_slug is total (a total function of its input), idempotent
— generate_slug (generate_slug x) = generate_slug x — and its output
contains only characters from [a-z0-9-], with no leading hyphen, no
trailing hyphen and no two consecutive hyphens. -/
theorem C7_generate_slug_idempotent_wellformed (x : List Char) :
    generate_slug (generate_slug x) = generate_slug x ∧
    (∀ c ∈ generate_slug x, isSlugOutputChar c = true) ∧
    (generate_slug x).head? ≠ some '-' ∧
    (generate_slug x).getLast? ≠ some '-' ∧
    noDoubleHyphen (generate_slug x) = true := by
  refine ⟨?_, fun c hc => generate_slug_all hc, generate_slug_head x,
    generate_slug_last x, generate_slug_noDouble x⟩
  exact generate_slug_id_on_wf (fun c hc => generate_slug_all hc)
    (generate_slug_head x) (generate_slug_last x) (generate_slug_noDouble x)

/-- C7 witness: the properties at a concrete input, with a concrete
evaluation of the slug. -/
theorem C7_witness :
    generate_slug "Writer.com — Review!".data = "writer-com-review".data ∧
    (generate_slug (generate_slug "Writer.com — Review!".data) =
      generate_slug "Writer.com — Review!".data ∧
    (∀ c ∈ generate_slug "Writer.com — Review!".data,
      isSlugOutputChar c = true) ∧
    (generate_slug "Writer.com — Review!".data).head? ≠ some '-' ∧
    (generate_slug "Writer.com — Review!".data).getLast? ≠ some '-' ∧
    noDoubleHyphen (generate_slug "Writer.com — Review!".data) = true) :=
  ⟨by decide, C7_generate_slug_idempotent_wellformed _⟩

/-- C10: the slug helpers duplicated in rebuild_mapping.py compute exactly
the same functions as their kb_sync.py counterparts (in particular the
range-form Unicode dash class equals the enumerated one), and
generate_path_slug agrees on every directory list and filename. -/
theorem C10_reconciliation_slug_equivalence :
    rm_generate_slug = generate_slug ∧
    rm_slug_from_filename = slug_from_filename ∧
    ∀ (dirParts : List (List Char)) (fileName : List Char),
      rm_generate_path_slug dirParts fileName =
        generate_path_slug dirParts fileName := by
  refine ⟨rm_generate_slug_eq, ?_, ?_⟩
  · funext fn
    unfold rm_slug_from_filename slug_from_filename
    rw [rm_generate_slug_eq]
  · intro dirParts fileName
    unfold rm_generate_path_slug generate_path_slug rm_slug_from_filename
      slug_from_filename
    rw [rm_generate_slug_eq]

/-- C4 counterexample: a body with no second-level heading and non-empty
text yields exactly one chunk, but its section_header is "Introduction",
not the empty string the claim asserts. -/
theorem C4_counterexample :
    (chunk_document "T".data "hello".data [] [] [] []).length = 1 ∧
    (chunk_document "T".data "hello".data [] [] [] []).map
      Chunk.section_header ≠ [[]] := by
  constructor
  · decide
  · decide

/-- C4 (amended): for a body with no second-level-heading lines,
chunk_document returns exactly one chunk with index 0, section header
"Introduction" and raw text the trimmed body when the trimmed body is
non-empty, and zero chunks when it is empty. -/
theorem C4_no_heading_chunks (title semantic_summary : List Char)
    (synthetic_questions key_concepts tags : List (List Char))
    (body : List Char) (hH : ∀ l ∈ splitLines body, isH2Line l = false) :
    chunk_document title body semantic_summary synthetic_questions
      key_concepts tags =
      (if pyStrip body = [] then []
       else [⟨0, "Introduction".data,
         buildPreamble title semantic_summary key_concepts tags
           synthetic_questions ++ pyStrip body, pyStrip body⟩]) :=
  chunk_no_headings title semantic_summary synthetic_questions key_concepts
    tags body hH

/-- C4 witness: the amended statement at a concrete heading-free body. -/
theorem C4_witness :
    (∀ l ∈ splitLines "hello".data, isH2Line l = false) ∧
    chunk_document "T".data "hello".data [] [] [] [] =
      (if pyStrip "hello".data = [] then []
       else [⟨0, "Introduction".data,
         buildPreamble "T".data [] [] [] [] ++ pyStrip "hello".data,
         pyStrip "hello".data⟩]) :=
  ⟨by decide, C4_no_heading_chunks "T".data [] [] [] [] "hello".data
    (by decide)⟩

/-- C5: for a body whose lead text is non-empty after trimming,
chunk_document yields one chunk per non-empty heading section plus the
lead chunk, with chunk_index values exactly 0,1,2,... over the emitted
chunks (a section empty after trimming is dropped and consumes no index),
and each section chunk's header label is the heading with the leading
hashes/space stripped. -/
theorem C5_chunk_contiguity (title semantic_summary : List Char)
    (synthetic_questions key_concepts tags : List (List Char))
    (body : List Char)
    (hintro : pyStrip (joinSep ['\n'] (splitH2 (splitLines body)).1) ≠ []) :
    (chunk_document title body semantic_summary synthetic_questions
      key_concepts tags).length =
      ((splitH2 (splitLines body)).2.filter
        (fun sec => decide (pyStrip (joinSep ['\n'] sec.2) ≠ []))).length + 1 ∧
    (chunk_document title body semantic_summary synthetic_questions
      key_concepts tags).map Chunk.chunk_index =
      List.range (chunk_document title body semantic_summary
        synthetic_questions key_concepts tags).length ∧
    (chunk_document title body semantic_summary synthetic_questions
      key_concepts tags).map Chunk.section_header =
      "Introduction".data :: ((splitH2 (splitLines body)).2.filter
        (fun sec => decide (pyStrip (joinSep ['\n'] sec.2) ≠ []))).map
        (fun sec => headerLabel (pyStrip sec.1)) :=
  chunk_intro_sections title semantic_summary synthetic_questions
    key_concepts tags body hintro

/-- C5 witness: a concrete body with two non-empty sections and one
whitespace-only section (dropped without consuming an index). -/
theorem C5_witness :
    (pyStrip (joinSep ['\n'] (splitH2 (splitLines
      "lead\n## A\ntext\n## B\n   \n## C x\nmore".data)).1) ≠ []) ∧
    ((chunk_document "T".data "lead\n## A\ntext\n## B\n   \n## C x\nmore".data
      [] [] [] []).length =
      ((splitH2 (splitLines "lead\n## A\ntext\n## B\n   \n## C x\nmore".data)).2.filter
        (fun sec => decide (pyStrip (joinSep ['\n'] sec.2) ≠ []))).length + 1 ∧
    (chunk_document "T".data "lead\n## A\ntext\n## B\n   \n## C x\nmore".data
      [] [] [] []).map Chunk.chunk_index =
      List.range (chunk_document "T".data
        "lead\n## A\ntext\n## B\n   \n## C x\nmore".data [] [] [] []).length ∧
    (chunk_document "T".data "lead\n## A\ntext\n## B\n   \n## C x\nmore".data
      [] [] [] []).map Chunk.section_header =
      "Introduction".data :: ((splitH2 (splitLines
        "lead\n## A\ntext\n## B\n   \n## C x\nmore".data)).2.filter
        (fun sec => decide (pyStrip (joinSep ['\n'] sec.2) ≠ []))).map
        (fun sec => headerLabel (pyStrip sec.1))) :=
  ⟨by decide, C5_chunk_contiguity "T".data [] [] [] []
    "lead\n## A\ntext\n## B\n   \n## C x\nmore".data (by decide)⟩

/-- C6: parse_frontmatter closes the frontmatter only at a line that is
exactly three hyphens plus optional trailing whitespace: a document
`---\n<yaml>\n---\n<body>` (with no delimiter line inside the yaml and a
successful parse) yields the parsed yaml and exactly the trimmed body —
whatever three-hyphen sequences the body contains mid-line — and text
whose first line is not a delimiter comes back unchanged with empty
metadata. -/
theorem C6_frontmatter_delimiter {α : Type}
    (yamlParse : List Char → Option α) (emptyMeta : α)
    (yaml bodyText content : List Char) (d : α)
    (hY : ∀ l ∈ splitLines yaml, isDelimLine l = false)
    (hparse : yamlParse yaml = some d)
    (hfirst : ∀ first rest, splitLines content = first :: rest →
      isDelimLine first = false) :
    parse_frontmatter yamlParse emptyMeta
      ("---".data ++ '\n' :: (yaml ++ '\n' :: ("---".data ++ '\n' :: bodyText)))
      = (d, pyStrip bodyText) ∧
    parse_frontmatter yamlParse emptyMeta content = (emptyMeta, content) :=
  ⟨parse_frontmatter_roundtrip yamlParse emptyMeta yaml bodyText d hY hparse,
   parse_frontmatter_no_delim yamlParse emptyMeta content hfirst⟩

/-- C6 witness: a concrete document whose body contains a mid-line
three-hyphen sequence. -/
theorem C6_witness :
    (∀ l ∈ splitLines "title: x".data, isDelimLine l = false) ∧
    ((fun s => if s = "title: x".data then some 7 else none)
      "title: x".data = some 7) ∧
    (parse_frontmatter (fun s => if s = "title: x".data then some 7 else none)
      0 ("---".data ++ '\n' :: ("title: x".data ++ '\n' ::
        ("---".data ++ '\n' :: "# --- note ---\nbody".data)))
      = (7, pyStrip "# --- note ---\nbody".data) ∧
    parse_frontmatter (fun s => if s = "title: x".data then some 7 else none)
      0 "plain text".data = (0, "plain text".data)) :=
  ⟨by decide, by decide,
   C6_frontmatter_delimiter (fun s => if s = "title: x".data then some 7 else none)
     0 "title: x".data "# --- note ---\nbody".data "plain text".data 7
     (by decide) (by decide)
     (by
       intro first rest h
       have hc : splitLines "plain text".data = ["plain text".data] := by
         decide
       rw [hc, List.cons.injEq] at h
       rw [← h.1]
       decide)⟩

/-- C2: with an identity-map entry carrying a (truthy) remote record id for
the file's path, sync_file updates that record by id and ends UPDATED,
without a slug lookup and without creating — the conclusion pins only
`update_post`, the api's `get_post_by_slug` and `create_post` fields are
universally quantified and do not occur in it; the hypotheses put no
constraint on the frontmatter title or slug, so the conclusion holds even
when the derived slug has changed since the last sync.  (The slug fallback
is attempted only without such an entry: this is the contrapositive of the
conclusion's independence from the lookup.) -/
theorem C2_identity_over_slug {σ : Type} (api : WPApi σ)
    (pinecone : Nat → List Char) (wp : σ) (f : MdFile) (m : Mapping)
    (e : MapEntry) (n pid : Nat) (link : List Char) (wp2 : σ)
    (hb : pyStrip f.body ≠ [])
    (hmap : lookupMap m f.relPath = some e)
    (hid : e.post_id = some n) (hn : n ≠ 0)
    (hupd : api.update_post wp n (payloadOf f) = .ok (pid, link, wp2)) :
    sync_file api pinecone wp f false m =
      ({ relPath := f.relPath, status := .updated, post_id := some pid,
         pinecone := some (pinecone pid), error := none, url := some link,
         title := some (orDefault f.fmTitle f.nameTitle) }, wp2) :=
  sync_file_map_hit api pinecone wp f m e n pid link wp2 hb hmap hid hn hupd

/-- C2 witness: a mapped file is updated by its stored id 5 even though the
file's slug fields are arbitrary. -/
theorem C2_witness :
    (pyStrip wFile.body ≠ []) ∧
    lookupMap wMapping wFile.relPath = some wEntry ∧
    wEntry.post_id = some 5 ∧
    sync_file wApi wPinecone 0 wFile false wMapping =
      ({ relPath := wFile.relPath, status := .updated, post_id := some 6,
         pinecone := some (wPinecone 6), error := none, url := some wLink,
         title := some (orDefault wFile.fmTitle wFile.nameTitle) }, 0) :=
  ⟨by decide, by decide, by decide,
   C2_identity_over_slug wApi wPinecone 0 wFile wMapping wEntry 5 6 wLink 0
     (by decide) (by decide) (by decide) (by decide) rfl⟩

/-- C3 counterexample: a one-file batch whose file ends CREATED, while the
identity-map state returned by sync_all equals the input map — sync_all
itself persists nothing (the write happens only in the CLI main block via
save_mapping_file; the MCP server path calls sync_all without saving at
all). -/
theorem C3_counterexample :
    ((sync_all wApi wPinecone 0 [wFile] false []).1.map SyncResult.status =
      [SyncStatus.created]) ∧
    (sync_all wApi wPinecone 0 [wFile] false []).2.2 = [] := by
  constructor
  · decide
  · rfl

/-- C3 (amended): sync_all returns one result per enumerated file and
leaves the identity map unchanged; the persistence happens in the CLI
batch path, which runs save_mapping_file over the results and thereby
records an entry (with a truthy post id) for every result that ended
CREATED or UPDATED with a truthy post id. -/
theorem C3_cli_persistence {σ : Type} (api : WPApi σ)
    (pinecone : Nat → List Char) (now : List Char) (wp : σ)
    (files : List MdFile) (dry : Bool) (m : Mapping) :
    (sync_all api pinecone wp files dry m).1.length = files.length ∧
    (sync_all api pinecone wp files dry m).2.2 = m ∧
    (∀ r ∈ (cli_sync_batch api pinecone now wp files dry m).1,
      (r.status = .created ∨ r.status = .updated) →
      (∃ n, r.post_id = some n ∧ n ≠ 0) →
      ∃ e, lookupMap (cli_sync_batch api pinecone now wp files dry m).2.2
          r.relPath = some e ∧ ∃ n, e.post_id = some n ∧ n ≠ 0) := by
  refine ⟨sync_batch_length api pinecone dry m files wp, rfl, ?_⟩
  intro r hr hcu hn
  exact save_mapping_written now _ m r.relPath
    ⟨r, hr, (entryWorthy_iff r).mpr ⟨hcu, hn⟩, rfl⟩

/-- C3 witness: the amended statement at a concrete one-file batch whose
file is created; the persisted map then holds a truthy entry for it. -/
theorem C3_witness :
    (sync_all wApi wPinecone 0 [wFile] false []).1.length =
      ([wFile] : List MdFile).length ∧
    (sync_all wApi wPinecone 0 [wFile] false []).2.2 = ([] : Mapping) ∧
    (∃ e, lookupMap (cli_sync_batch wApi wPinecone "t".data 0 [wFile]
        false []).2.2
        ({ relPath := "a.md".data, status := SyncStatus.created,
           post_id := some 1, pinecone := some "ok".data, error := none,
           url := some wLink, title := some "A".data } : SyncResult).relPath
        = some e ∧ ∃ n, e.post_id = some n ∧ n ≠ 0) :=
  ⟨(C3_cli_persistence wApi wPinecone "t".data 0 [wFile] false []).1,
   (C3_cli_persistence wApi wPinecone "t".data 0 [wFile] false []).2.1,
   (C3_cli_persistence wApi wPinecone "t".data 0 [wFile] false []).2.2
     { relPath := "a.md".data, status := SyncStatus.created,
       post_id := some 1, pinecone := some "ok".data, error := none,
       url := some wLink, title := some "A".data }
     (by decide) (by decide) ⟨1, by decide, by decide⟩⟩

/-- C9: sync_file always returns a result with a definite status (never
the pending placeholder); when a modelled remote step raises, the result
has status ERROR with the exception message in the error field and the
remote state unchanged; and save_mapping_file changes no identity-map
path unless some result for that path ended CREATED or UPDATED. -/
theorem C9_error_boundary {σ : Type} (api : WPApi σ)
    (pinecone : Nat → List Char) (wp : σ) (f : MdFile) (dry : Bool)
    (m : Mapping) (now : List Char) (results : List SyncResult)
    (existing : Mapping) (p : List Char) :
    ((sync_file api pinecone wp f dry m).1.status ≠ .pending) ∧
    (∀ e, pyStrip f.body ≠ [] →
      resolveWrite api wp (payloadOf f) (slugOf f) (entryIdOf m f) =
        .error e →
      sync_file api pinecone wp f false m =
        ({ relPath := f.relPath, status := .error, post_id := none,
           pinecone := none, error := some e, url := none,
           title := none }, wp)) ∧
    ((∀ r ∈ results, r.relPath = p →
        ¬(r.status = .created ∨ r.status = .updated)) →
      lookupMap (save_mapping_file now results existing) p =
        lookupMap existing p) :=
  ⟨sync_file_not_pending api pinecone wp f dry m,
   fun e hb hres => sync_file_resolve_error api pinecone wp f m e hb hres,
   fun h => save_mapping_untouched now results existing p h⟩

/-- C9 witness: a raising remote (errApi) yields the ERROR result with the
captured message; an errored result leaves the saved map untouched. -/
theorem C9_witness :
    ((sync_file errApi wPinecone 0 wFile false []).1.status ≠
      SyncStatus.pending) ∧
    (sync_file errApi wPinecone 0 wFile false [] =
      ({ relPath := wFile.relPath, status := .error, post_id := none,
         pinecone := none, error := some "500 Server Error".data,
         url := none, title := none }, 0)) ∧
    (lookupMap (save_mapping_file "t".data
        [{ relPath := "x".data, status := SyncStatus.error, post_id := none,
           pinecone := none, error := some "boom".data, url := none,
           title := none }] []) "x".data =
      lookupMap [] "x".data) :=
  ⟨(C9_error_boundary errApi wPinecone 0 wFile false [] "t".data [] []
      []).1,
   (C9_error_boundary errApi wPinecone 0 wFile false [] "t".data [] []
      []).2.1 "500 Server Error".data (by decide) rfl,
   (C9_error_boundary errApi wPinecone 0 wFile false [] "t".data
      [{ relPath := "x".data, status := SyncStatus.error, post_id := none,
         pinecone := none, error := some "boom".data, url := none,
         title := none }] [] "x".data).2.2 (by decide)⟩

/-- C1: running sync_all twice against the same file set and a stable,
deterministic remote (updates always succeed and all record ids are
positive), with the identity map persisted between the runs as the CLI
does, produces on the second run only UPDATED or SKIPPED statuses — in
particular never a second CREATED — provided the first run itself ended
every file in created/updated/skipped. -/
theorem C1_sync_all_idempotent {σ : Type} (api : WPApi σ)
    (pinecone : Nat → List Char) (now : List Char) (wp : σ)
    (files : List MdFile) (m0 : Mapping)
    (hpos_c : ∀ s pl pid link s2,
      api.create_post s pl = .ok (pid, link, s2) → pid ≠ 0)
    (hpos_u : ∀ s nn pl pid link s2,
      api.update_post s nn pl = .ok (pid, link, s2) → pid ≠ 0)
    (hupd_ok : ∀ s nn pl, nn ≠ 0 →
      ∃ pid link s2, api.update_post s nn pl = .ok (pid, link, s2))
    (hrun1 : ∀ r ∈ (sync_all api pinecone wp files false m0).1,
      r.status = .created ∨ r.status = .updated ∨ r.status = .skipped) :
    ∀ r2 ∈ (sync_all api pinecone
        (sync_all api pinecone wp files false m0).2.1 files false
        (save_mapping_file now (sync_all api pinecone wp files false m0).1
          m0)).1,
      r2.status = .updated ∨ r2.status = .skipped := by
  intro r2 hr2
  obtain ⟨f, hf, s2, hr2eq⟩ := sync_batch_mem api pinecone false
    (save_mapping_file now (sync_all api pinecone wp files false m0).1 m0)
    files _ r2 hr2
  subst hr2eq
  by_cases hb : pyStrip f.body = []
  · right
    rw [sync_file_body_empty api pinecone s2 f false _ hb]
  · left
    obtain ⟨s1, hmem1⟩ := sync_batch_covers api pinecone false m0 files wp
      f hf
    have hst1 := hrun1 _ hmem1
    have hns := sync_file_not_skipped api pinecone s1 f m0 hb
    have hcu : (sync_file api pinecone s1 f false m0).1.status = .created ∨
        (sync_file api pinecone s1 f false m0).1.status = .updated := by
      rcases hst1 with h | h | h
      · exact Or.inl h
      · exact Or.inr h
      · exact absurd h hns
    have hw := sync_file_cu_worthy api pinecone s1 f m0 hpos_c hpos_u hb hcu
    have hrp := sync_file_relPath api pinecone s1 f false m0
    obtain ⟨e, he, nn, hnn, hne⟩ := save_mapping_written now
      (sync_all api pinecone wp files false m0).1 m0 f.relPath
      ⟨(sync_file api pinecone s1 f false m0).1, hmem1, hw, hrp⟩
    obtain ⟨pid, link, s3, hupd⟩ := hupd_ok s2 nn (payloadOf f) hne
    rw [sync_file_map_hit api pinecone s2 f
      (save_mapping_file now (sync_all api pinecone wp files false m0).1 m0)
      e nn pid link s3 hb he hnn hne hupd]

/-- C1 witness: the two-run scenario at a concrete one-file batch against
the deterministic wApi remote: the first run creates (post id 1), the
second run's result — which is exactly the UPDATED record below — is
UPDATED or SKIPPED by the theorem. -/
theorem C1_witness :
    ({ relPath := "a.md".data, status := SyncStatus.updated,
       post_id := some 2, pinecone := some "ok".data, error := none,
       url := some wLink, title := some "A".data } : SyncResult).status =
      SyncStatus.updated ∨
    ({ relPath := "a.md".data, status := SyncStatus.updated,
       post_id := some 2, pinecone := some "ok".data, error := none,
       url := some wLink, title := some "A".data } : SyncResult).status =
      SyncStatus.skipped :=
  C1_sync_all_idempotent wApi wPinecone "t".data 0 [wFile] []
    (fun s pl pid link s2 h => by
      simp only [wApi, Except.ok.injEq, Prod.mk.injEq] at h
      omega)
    (fun s nn pl pid link s2 h => by
      simp only [wApi, Except.ok.injEq, Prod.mk.injEq] at h
      omega)
    (fun s nn pl _ => ⟨nn + 1, wLink, s, rfl⟩)
    (by decide)
    { relPath := "a.md".data, status := SyncStatus.updated,
      post_id := some 2, pinecone := some "ok".data, error := none,
      url := some wLink, title := some "A".data }
    (by decide)

/-- C8: search_knowledge_core keeps at most one match per base document —
the kept entry is a match of that document with maximal score among its
chunks — discards kept matches below the low threshold, sends a remaining
match to the high tier iff its score is at or above the high threshold and
to the medium tier otherwise, renders a tier block only when that tier is
non-empty, and returns the explicit no-intelligence message on zero
matches. -/
theorem C8_search_tiering (fmtScore fmtThresh : ℚ → List Char)
    (fmtNum : Nat → List Char) (high low : ℚ) (query : List Char)
    (qms : List QMatch) :
    ((best_per_doc qms).map Prod.fst).Nodup ∧
    (∀ kv ∈ best_per_doc qms, kv.1 = baseId kv.2.id ∧ kv.2 ∈ qms ∧
      ∀ m ∈ qms, baseId m.id = kv.1 → m.score ≤ kv.2.score) ∧
    ((tierSplit fmtScore high low ((best_per_doc qms).map Prod.snd)).1 =
      (((best_per_doc qms).map Prod.snd).filter
        (fun m => !decide (m.score < low) && decide (high ≤ m.score))).map
        (entryFor fmtScore)) ∧
    ((tierSplit fmtScore high low ((best_per_doc qms).map Prod.snd)).2 =
      (((best_per_doc qms).map Prod.snd).filter
        (fun m => !decide (m.score < low) && !decide (high ≤ m.score))).map
        (entryFor fmtScore)) ∧
    (qms = [] →
      search_knowledge_core fmtScore fmtThresh fmtNum high low query qms =
        noIntelMsg query) ∧
    (qms ≠ [] →
      (tierSplit fmtScore high low ((best_per_doc qms).map Prod.snd)).1 = [] →
      (tierSplit fmtScore high low ((best_per_doc qms).map Prod.snd)).2 = [] →
      search_knowledge_core fmtScore fmtThresh fmtNum high low query qms =
        "Knowledge Core Search: Found ".data ++ fmtNum qms.length ++
        " matches for ".data ++ sq ++ query ++ sq ++
        " but none above confidence threshold (".data ++ fmtThresh low ++
        "). Recommend fresh external research.".data) ∧
    (qms ≠ [] →
      (tierSplit fmtScore high low ((best_per_doc qms).map Prod.snd)).1 ≠ [] →
      (tierSplit fmtScore high low ((best_per_doc qms).map Prod.snd)).2 ≠ [] →
      search_knowledge_core fmtScore fmtThresh fmtNum high low query qms =
        "**Knowledge Core Intelligence Found:**\n\n".data ++
        (("**High-Confidence Results:**\n\n".data ++
          joinSep "\n\n---\n\n".data (tierSplit fmtScore high low
            ((best_per_doc qms).map Prod.snd)).1) ++
         "\n\n".data ++
         ("**Medium-Confidence Results:**\n\n".data ++
          joinSep "\n\n---\n\n".data (tierSplit fmtScore high low
            ((best_per_doc qms).map Prod.snd)).2))) ∧
    (qms ≠ [] →
      (tierSplit fmtScore high low ((best_per_doc qms).map Prod.snd)).1 ≠ [] →
      (tierSplit fmtScore high low ((best_per_doc qms).map Prod.snd)).2 = [] →
      search_knowledge_core fmtScore fmtThresh fmtNum high low query qms =
        "**Knowledge Core Intelligence Found:**\n\n".data ++
        ("**High-Confidence Results:**\n\n".data ++
          joinSep "\n\n---\n\n".data (tierSplit fmtScore high low
            ((best_per_doc qms).map Prod.snd)).1)) ∧
    (qms ≠ [] →
      (tierSplit fmtScore high low ((best_per_doc qms).map Prod.snd)).1 = [] →
      (tierSplit fmtScore high low ((best_per_doc qms).map Prod.snd)).2 ≠ [] →
      search_knowledge_core fmtScore fmtThresh fmtNum high low query qms =
        "**Knowledge Core Intelligence Found:**\n\n".data ++
        ("**Medium-Confidence Results:**\n\n".data ++
          joinSep "\n\n---\n\n".data (tierSplit fmtScore high low
            ((best_per_doc qms).map Prod.snd)).2)) := by
  obtain ⟨hnd, -, hmain⟩ := best_per_doc_inv qms
  obtain ⟨ht1, ht2⟩ := tierSplit_filter fmtScore high low
    ((best_per_doc qms).map Prod.snd)
  refine ⟨hnd, hmain, ht1, ht2, ?_, ?_, ?_, ?_, ?_⟩
  · intro h
    subst h
    rfl
  · intro hne h1 h2
    exact search_report_below fmtScore fmtThresh fmtNum high low query qms
      hne h1 h2
  · intro hne h1 h2
    exact search_report_both fmtScore fmtThresh fmtNum high low query qms
      hne h1 h2
  · intro hne h1 h2
    exact search_report_high_only fmtScore fmtThresh fmtNum high low query
      qms hne h1 h2
  · intro hne h1 h2
    exact search_report_medium_only fmtScore fmtThresh fmtNum high low
      query qms hne h1 h2

/-- C8 witness: four matches with scores scaled by 100 — two chunks of one
document (91 and 30, deduplicated to 91), one document at 62 and one at
50 — against thresholds high = 70, low = 55: one high entry, one medium
entry, the 50 discarded, and the report carries both tier blocks. -/
theorem C8_witness :
    search_knowledge_core (fun _ => "sc".data) (fun _ => "th".data)
      (fun _ => "n".data) (70) (55) "q".data
      [⟨"kb-1-chunk-0".data, 91, "t1".data, "s1".data, "d1".data,
        "T1".data, "H1".data⟩,
       ⟨"kb-1-chunk-2".data, 30, "t2".data, "s2".data, "d2".data,
        "T2".data, "H2".data⟩,
       ⟨"kb-2".data, 62, "t3".data, "s3".data, "d3".data, "T3".data,
        "H3".data⟩,
       ⟨"kb-3".data, 50, "t4".data, "s4".data, "d4".data, "T4".data,
        "H4".data⟩] =
      "**Knowledge Core Intelligence Found:**\n\n".data ++
      (("**High-Confidence Results:**\n\n".data ++
        joinSep "\n\n---\n\n".data (tierSplit (fun _ => "sc".data)
          (70) (55) ((best_per_doc
          [⟨"kb-1-chunk-0".data, 91, "t1".data, "s1".data, "d1".data,
            "T1".data, "H1".data⟩,
           ⟨"kb-1-chunk-2".data, 30, "t2".data, "s2".data, "d2".data,
            "T2".data, "H2".data⟩,
           ⟨"kb-2".data, 62, "t3".data, "s3".data, "d3".data,
            "T3".data, "H3".data⟩,
           ⟨"kb-3".data, 50, "t4".data, "s4".data, "d4".data,
            "T4".data, "H4".data⟩]).map Prod.snd)).1) ++
       "\n\n".data ++
       ("**Medium-Confidence Results:**\n\n".data ++
        joinSep "\n\n---\n\n".data (tierSplit (fun _ => "sc".data)
          (70) (55) ((best_per_doc
          [⟨"kb-1-chunk-0".data, 91, "t1".data, "s1".data, "d1".data,
            "T1".data, "H1".data⟩,
           ⟨"kb-1-chunk-2".data, 30, "t2".data, "s2".data, "d2".data,
            "T2".data, "H2".data⟩,
           ⟨"kb-2".data, 62, "t3".data, "s3".data, "d3".data,
            "T3".data, "H3".data⟩,
           ⟨"kb-3".data, 50, "t4".data, "s4".data, "d4".data,
            "T4".data, "H4".data⟩]).map Prod.snd)).2)) :=
  (C8_search_tiering (fun _ => "sc".data) (fun _ => "th".data)
     (fun _ => "n".data) (70) (55) "q".data
     [⟨"kb-1-chunk-0".data, 91, "t1".data, "s1".data, "d1".data,
       "T1".data, "H1".data⟩,
      ⟨"kb-1-chunk-2".data, 30, "t2".data, "s2".data, "d2".data,
       "T2".data, "H2".data⟩,
      ⟨"kb-2".data, 62, "t3".data, "s3".data, "d3".data, "T3".data,
       "H3".data⟩,
      ⟨"kb-3".data, 50, "t4".data, "s4".data, "d4".data, "T4".data,
       "H4".data⟩]).2.2.2.2.2.2.1
     (by decide) (by decide) (by decide)

end SieEngine
